import Mathlib

/-!
Verification model of the `parser_news` repository (news/product parsing service).

The definitions below are shallow embeddings of the Python sources under
`app/`: the pydantic models in `app/models/news.py`, the news parsers in
`app/parsers/news_parsers/*.py`, the validation helpers in `app/parsers/base.py`
and the routing logic in `app/services/news_service.py`.  Network fetches and
HTML extraction are the only effectful parts of the code; they are modelled as
explicit oracle parameters (a page oracle giving the stub list extracted from a
listing URL, and an article oracle giving the outcome of fetching and parsing a
single article page).  Everything downstream of those oracles is translated
statement by statement.
-/

namespace NewsModel

/-! ### Text cleaning (`BaseNewsParser._clean_text` / `ArticleData.clean_text`)

`re.sub(r'<[^>]+>', '', text)` removes every maximal `<...>` group containing at
least one non-`>` character, then `re.sub(r'\s+', ' ', text).strip()` collapses
whitespace runs and trims.  `splitAtGt` consumes characters up to and including
the first `>`. -/

def splitAtGt : List Char → Option (List Char)
  | [] => none
  | c :: cs => if c = '>' then some cs else splitAtGt cs

/-- One scan step per unit of fuel; each step consumes at least one input
character, so `fuel = input length` always suffices (see `stripTags`). -/
def stripTagsAux : Nat → List Char → List Char
  | 0, l => l
  | _ + 1, [] => []
  | fuel + 1, c :: cs =>
    if c = '<' then
      -- the regex `<[^>]+>` requires at least one character between the brackets
      match cs with
      | [] => [c]
      | d :: ds =>
        if d = '>' then c :: stripTagsAux fuel (d :: ds)
        else
          match splitAtGt (d :: ds) with
          | some rest => stripTagsAux fuel rest
          | none => c :: stripTagsAux fuel cs
    else c :: stripTagsAux fuel cs

def stripTags (s : String) : String := ⟨stripTagsAux s.data.length s.data⟩

/-- Python `\s` (ASCII portion): space, tab, newline, carriage return,
vertical tab, form feed. -/
def isPySpace (c : Char) : Bool :=
  c == ' ' || c == '\t' || c == '\n' || c == '\r' || c == '\x0b' || c == '\x0c'

/-- Split into maximal whitespace-free words (`acc` holds the reversed current
word). -/
def wordsAux : List Char → List Char → List (List Char)
  | [], acc => if acc.isEmpty then [] else [acc.reverse]
  | c :: cs, acc =>
    if isPySpace c then
      if acc.isEmpty then wordsAux cs [] else acc.reverse :: wordsAux cs []
    else wordsAux cs (c :: acc)

def joinWords : List (List Char) → List Char
  | [] => []
  | [w] => w
  | w :: ws => w ++ ' ' :: joinWords ws

/-- `re.sub(r'\s+', ' ', s).strip()`: equivalently, split on whitespace runs,
drop empty fragments, re-join with single spaces. -/
def collapseSpaces (s : String) : String := ⟨joinWords (wordsAux s.data [])⟩

def cleanText (s : String) : String := collapseSpaces (stripTags s)

/-! ### Substring search (Python `needle in haystack`) -/

def listIsPrefix : List Char → List Char → Bool
  | [], _ => true
  | _ :: _, [] => false
  | a :: as, b :: bs => a == b && listIsPrefix as bs

def listContains (needle : List Char) : List Char → Bool
  | [] => listIsPrefix needle []
  | c :: cs => listIsPrefix needle (c :: cs) || listContains needle cs

def strContains (hay needle : String) : Bool := listContains needle.data hay.data

/-- Python `s.startswith(p)`. -/
def strStartsWith (s p : String) : Bool := listIsPrefix p.data s.data

/-- Python `s.endswith(p)`. -/
def strEndsWith (s p : String) : Bool := listIsPrefix p.data.reverse s.data.reverse

/-- Python `s.lower()` (ASCII range; the compared strings are ASCII URLs). -/
def strToLower (s : String) : String := ⟨s.data.map Char.toLower⟩

/-- Python `s.strip()`: drop leading and trailing whitespace. -/
def pyStrip (s : String) : String :=
  ⟨((s.data.dropWhile isPySpace).reverse.dropWhile isPySpace).reverse⟩

def strIsEmpty (s : String) : Bool := s.data.isEmpty

/-! ### Dates and datetimes

All datetimes in the parsers are normalised to UTC; a datetime is modelled as a
calendar-day ordinal (`day`, days since 0000-03-01 in the proleptic Gregorian
calendar) plus a second-of-day.  `.date()` comparison between two datetimes is
exactly comparison of the day ordinals. -/

structure PyDateTime where
  day : Nat
  sod : Nat := 0
  deriving DecidableEq, Repr

/-- `daysFromCivil`: Gregorian (year, month, day) to day ordinal
(days since 0000-03-01). -/
def daysFromCivil (y m d : Nat) : Nat :=
  let y' := if m ≤ 2 then y - 1 else y
  let era := y' / 400
  let yoe := y' % 400
  let mp := (m + 9) % 12
  let doy := (153 * mp + 2) / 5 + d - 1
  let doe := yoe * 365 + yoe / 4 - yoe / 100 + doy
  era * 146097 + doe

/-- `civilFromDays`: day ordinal back to (year, month, day). -/
def civilFromDays (z : Nat) : Nat × Nat × Nat :=
  let era := z / 146097
  let doe := z % 146097
  let yoe := (doe - doe / 1460 + doe / 36524 - doe / 146096) / 365
  let y' := yoe + era * 400
  let doy := doe - (365 * yoe + yoe / 4 - yoe / 100)
  let mp := (5 * doy + 2) / 153
  let d := doy - (153 * mp + 2) / 5 + 1
  let m := if mp < 10 then mp + 3 else mp - 9
  (if m ≤ 2 then y' + 1 else y', m, d)

/-! ### `BaseNewsParser._is_date_valid` -/

/-- `_is_date_valid(article_date, until_date)`: `True` when `until_date is None`
or `article_date is None`, else `article_date.date() >= until_date.date()`. -/
def isDateValid (articleDate untilDate : Option PyDateTime) : Bool :=
  match untilDate with
  | none => true
  | some u =>
    match articleDate with
    | none => true
    | some a => u.day ≤ a.day

/-! ### URL helpers (`urllib.parse.urlparse(...).netloc` and www-stripping) -/

/-- The characters after the first occurrence of `marker`, if any. -/
def dropAfterMarker (marker : List Char) : List Char → Option (List Char)
  | [] => if marker.isEmpty then some [] else none
  | c :: cs =>
    if listIsPrefix marker (c :: cs) then some ((c :: cs).drop marker.length)
    else dropAfterMarker marker cs

/-- `urlparse(u).netloc` for URLs carrying an explicit scheme: the text between
`://` and the first `/`, `?` or `#`.  The parsers only ever pass scheme-ful
URLs here (listing URLs are validated, article URLs are normalised to absolute
form by `_normalize_url` / `_normalize_pravda_url` before reaching this code);
a URL with no `://` has an empty netloc. -/
def urlNetloc (u : String) : String :=
  match dropAfterMarker "://".data u.data with
  | some rest => ⟨rest.takeWhile (fun c => c != '/' && c != '?' && c != '#')⟩
  | none => ""

/-- Left-to-right non-overlapping removal of `www.`, one scan step per unit of
fuel (each step consumes at least one character, so `fuel = input length`
suffices). -/
def stripWwwAux : Nat → List Char → List Char
  | 0, l => l
  | _ + 1, [] => []
  | fuel + 1, c :: cs =>
    if listIsPrefix ['w', 'w', 'w', '.'] (c :: cs) then stripWwwAux fuel (cs.drop 3)
    else c :: stripWwwAux fuel cs

/-- Python `netloc.replace('www.', '')` (removes every occurrence). -/
def stripWww (s : String) : String := ⟨stripWwwAux s.data.length s.data⟩

/-- `PravdaNewsParser._should_parse_full_content` and
`EpravdaNewsParser._should_parse_full_content` (textually identical in the two
sources): the lowercased, www-stripped netlocs must coincide. -/
def shouldParseFullContent (sourceUrl articleUrl : String) : Bool :=
  stripWww (strToLower (urlNetloc sourceUrl)) == stripWww (strToLower (urlNetloc articleUrl))

/-- `PolitekaNewsParser._should_parse_full_content`: both www-stripped netlocs
must be `politeka.net` or a subdomain of it. -/
def politekaShouldParseFullContent (sourceUrl articleUrl : String) : Bool :=
  let s := stripWww (strToLower (urlNetloc sourceUrl))
  let a := stripWww (strToLower (urlNetloc articleUrl))
  (s == "politeka.net" || strEndsWith s ".politeka.net") &&
    (a == "politeka.net" || strEndsWith a ".politeka.net")

/-! ### `app/models/news.py`: pydantic models with their field validators

Construction of a pydantic model runs the field validators and raises
`ValidationError` when one of them rejects, so each constructor is embedded as
an `Except String` function. -/

structure ArticleData where
  title : String
  content_body : String
  image_urls : List String
  published_at : Option PyDateTime
  author : Option String
  views : Option Int
  comments : List String
  likes : Option Int
  dislikes : Option Int
  video_url : Option String
  deriving DecidableEq, Repr

/-- `ArticleData.validate_image_urls`: keep non-blank strings; `//...` gets
`https:` prepended, `/...` is dropped, anything not starting with `https://`
gets `https://` prepended. -/
def validateImageUrls (v : List String) : List String :=
  v.filterMap (fun url =>
    if strIsEmpty (pyStrip url) then none
    else
      let u := pyStrip url
      if strStartsWith u "//" then some ("https:" ++ u)
      else if strStartsWith u "/" then none
      else if strStartsWith u "https://" then some u
      else some ("https://" ++ u))

/-- `ArticleData.validate_video_url`: blank becomes `None`; `//...` gets
`https:` prepended; anything else not starting with `https://` gets `https://`
prepended. -/
def validateVideoUrl (v : Option String) : Option String :=
  match v with
  | none => none
  | some s =>
    let t := pyStrip s
    if strIsEmpty t then none
    else if strStartsWith t "//" then some ("https:" ++ t)
    else if strStartsWith t "https://" then some t
    else some ("https://" ++ t)

/-- `ArticleData.validate_comments`: keep comments that are non-blank and still
non-empty after HTML-stripping and whitespace normalisation. -/
def validateComments (v : List String) : List String :=
  v.filterMap (fun c =>
    if strIsEmpty (pyStrip c) then none
    else
      let cc := cleanText c
      if strIsEmpty cc then none else some cc)

def negOpt (v : Option Int) : Bool :=
  match v with
  | some n => n < 0
  | none => false

/-- `ArticleData(...)`: runs `clean_text` on `title`/`content_body`/`author`,
the URL validators on `image_urls`/`video_url`, the comment cleaner, and the
`ge=0` bounds on `views`/`likes`/`dislikes`. -/
def mkArticleData (title content_body : String) (image_urls : List String)
    (published_at : Option PyDateTime) (author : Option String) (views : Option Int)
    (comments : List String) (likes dislikes : Option Int) (video_url : Option String) :
    Except String ArticleData :=
  if negOpt views then .error "views: input should be greater than or equal to 0"
  else if negOpt likes then .error "likes: input should be greater than or equal to 0"
  else if negOpt dislikes then .error "dislikes: input should be greater than or equal to 0"
  else .ok {
    title := cleanText title
    content_body := cleanText content_body
    image_urls := validateImageUrls image_urls
    published_at := published_at
    author := author.map cleanText
    views := views
    comments := validateComments comments
    likes := likes
    dislikes := dislikes
    video_url := validateVideoUrl video_url }

structure NewsItem where
  source : String
  url : String
  article_data : ArticleData
  deriving DecidableEq, Repr

/-- `NewsItem.validate_urls` (applied to both `source` and `url`): already
`https://` is kept, `//...` gets `https:` prepended, `/...` raises, anything
else gets `https://` prepended. -/
def validateNewsUrl (v : String) : Except String String :=
  if strStartsWith v "https://" then .ok v
  else if strStartsWith v "//" then .ok ("https:" ++ v)
  else if strStartsWith v "/" then .error "Относительные URL не поддерживаются для source и url"
  else .ok ("https://" ++ v)

def mkNewsItem (source url : String) (article_data : ArticleData) :
    Except String NewsItem :=
  match validateNewsUrl source with
  | .error e => .error e
  | .ok s =>
    match validateNewsUrl url with
    | .error e => .error e
    | .ok u => .ok { source := s, url := u, article_data := article_data }

structure NewsCollection where
  source : String
  items : List NewsItem
  parsed_at : PyDateTime
  total_items : Nat
  parse_status : String
  error_message : Option String
  deriving DecidableEq, Repr

/-- `NewsCollection(...)`: `validate_source_url` requires an `https://` source;
`calculate_total_items` runs before assignment and, since `items` is always
present in `info.data` by that point, replaces whatever `total_items` argument
was passed with `len(items)`; `validate_parse_status` admits only
`success`/`partial`/`failed`.  `parsed_at` defaults to `datetime.now(UTC)`,
passed here as the `now` argument. -/
def mkNewsCollection (source : String) (items : List NewsItem) (now : PyDateTime)
    (total_items_arg : Nat) (parse_status : String) (error_message : Option String) :
    Except String NewsCollection :=
  if !(strStartsWith source "https://") then .error "source должен быть полным URL"
  else if !(parse_status == "success" || parse_status == "partial" || parse_status == "failed") then
    .error "parse_status должен быть одним из: [success, partial, failed]"
  else .ok {
    source := source
    items := items
    parsed_at := now
    total_items := items.length
    parse_status := parse_status
    error_message := error_message }

/-! ### Article stubs and fetch oracles

`_extract_articles_with_titles` produces one dict per listing entry; the keys
that the downstream pipeline reads are modelled as fields (`subheader` exists
only for pravda stubs, `description`/`image_urls` only for politeka stubs; the
Python code reads them through `dict.get(key, default)`, which the field
defaults reproduce). -/

structure Stub where
  title : String
  url : String
  datetime : Option PyDateTime
  subheader : String := ""
  description : String := ""
  image_urls : List String := []
  deriving DecidableEq, Repr

/-- Outcome of `_parse_full_article(url, client)` for one article, as seen by
`_process_single_article`:
* `exn m` — an exception escaped `_process_single_article` itself and reached
  `asyncio.gather` (its internal `try` makes this unreachable for ordinary
  fetch/extract faults, but the `gather` handler exists for it);
* `failed` — `_parse_full_article` returned `None` (content fetch failed,
  expected container missing, or an internal exception was caught);
* `parsed d` — a full `ArticleData` was extracted. -/
inductive FetchRes where
  | exn (msg : String)
  | failed
  | parsed (d : ArticleData)
  deriving DecidableEq, Repr

/-- A result slot of `asyncio.gather(..., return_exceptions=True)`:
either an exception object or the coroutine's return value. -/
inductive GatherRes where
  | exn (msg : String)
  | val (item : Option NewsItem)
  deriving DecidableEq, Repr

/-! ### Deduplication by URL

`parse_news` in `epravda_parser.py` and `politeka_parser.py`:
```
unique_articles = []; seen_urls = set()
for article in all_articles:
    if article['url'] not in seen_urls:
        unique_articles.append(article); seen_urls.add(article['url'])
```
(`pravda_parser.py` has no such step.) -/

def dedupAux : List Stub → List String → List Stub
  | [], _ => []
  | s :: rest, seen =>
    if seen.contains s.url then dedupAux rest seen
    else s :: dedupAux rest (s.url :: seen)

def dedupByUrl (l : List Stub) : List Stub := dedupAux l []

/-! ### `_create_simple_article_data` (per source) -/

/-- Pravda: `content_body` is the listing subheader. -/
def pravdaCreateSimpleArticleData (s : Stub) : Except String ArticleData :=
  mkArticleData s.title s.subheader [] s.datetime none none [] none none none

/-- Epravda: `content_body` is the empty string. -/
def epravdaCreateSimpleArticleData (s : Stub) : Except String ArticleData :=
  mkArticleData s.title "" [] s.datetime none none [] none none none

/-- Politeka: `content_body` is the listing description and the listing images
are kept. -/
def politekaCreateSimpleArticleData (s : Stub) : Except String ArticleData :=
  mkArticleData s.title s.description s.image_urls s.datetime none none [] none none none

/-! ### `_process_single_article` (per source)

Given the outcome of `_parse_full_article`, build the `NewsItem`; every
exception raised inside the method body (including a `NewsItem` validation
error) is caught by its own `except` and turned into `None`. -/

/-- Pravda: the listing timestamp overwrites `published_at` only when truthy
(`if article.get('datetime'):`). -/
def pravdaProcessSingle (source : String) (s : Stub) (res : FetchRes) : GatherRes :=
  match res with
  | .exn m => .exn m
  | .failed => .val none
  | .parsed d =>
    match mkNewsItem source s.url
        (if s.datetime.isSome then { d with published_at := s.datetime } else d) with
    | .ok it => .val (some it)
    | .error _ => .val none

/-- Epravda: unconditional overwrite
(`full_article_data.published_at = article.get('datetime')`). -/
def epravdaProcessSingle (source : String) (s : Stub) (res : FetchRes) : GatherRes :=
  match res with
  | .exn m => .exn m
  | .failed => .val none
  | .parsed d =>
    match mkNewsItem source s.url { d with published_at := s.datetime } with
    | .ok it => .val (some it)
    | .error _ => .val none

/-- Politeka: same conditional overwrite as pravda. -/
def politekaProcessSingle (source : String) (s : Stub) (res : FetchRes) : GatherRes :=
  pravdaProcessSingle source s res

/-! ### `_process_articles_batch` (per source)

`asyncio.gather(..., return_exceptions=True)` followed by the result loop:
an `Exception` slot yields a stub-only fallback item, a `None` slot is
skipped, a `NewsItem` slot is appended.  A fault raised while building the
fallback item propagates to `parse_news`'s top-level handler. -/

def pravdaProcessBatch (source : String) (oracle : Stub → FetchRes) :
    List Stub → Except String (List NewsItem)
  | [] => .ok []
  | s :: rest =>
    match pravdaProcessSingle source s (oracle s) with
    | .exn _ =>
      match pravdaCreateSimpleArticleData s with
      | .error e => .error e
      | .ok data =>
        match mkNewsItem source s.url data with
        | .error e => .error e
        | .ok it =>
          match pravdaProcessBatch source oracle rest with
          | .error e => .error e
          | .ok tail => .ok (it :: tail)
    | .val none => pravdaProcessBatch source oracle rest
    | .val (some it) =>
      match pravdaProcessBatch source oracle rest with
      | .error e => .error e
      | .ok tail => .ok (it :: tail)

/-- Epravda additionally date-filters both the fallback item (on the stub
timestamp) and the full item (on its `published_at`). -/
def epravdaProcessBatch (source : String) (oracle : Stub → FetchRes)
    (untilDate : Option PyDateTime) : List Stub → Except String (List NewsItem)
  | [] => .ok []
  | s :: rest =>
    match epravdaProcessSingle source s (oracle s) with
    | .exn _ =>
      match epravdaCreateSimpleArticleData s with
      | .error e => .error e
      | .ok data =>
        match mkNewsItem source s.url data with
        | .error e => .error e
        | .ok it =>
          if untilDate.isNone || isDateValid s.datetime untilDate then
            match epravdaProcessBatch source oracle untilDate rest with
            | .error e => .error e
            | .ok tail => .ok (it :: tail)
          else epravdaProcessBatch source oracle untilDate rest
    | .val none => epravdaProcessBatch source oracle untilDate rest
    | .val (some it) =>
      if untilDate.isNone || isDateValid it.article_data.published_at untilDate then
        match epravdaProcessBatch source oracle untilDate rest with
        | .error e => .error e
        | .ok tail => .ok (it :: tail)
      else epravdaProcessBatch source oracle untilDate rest

def politekaProcessBatch (source : String) (oracle : Stub → FetchRes) :
    List Stub → Except String (List NewsItem)
  | [] => .ok []
  | s :: rest =>
    match politekaProcessSingle source s (oracle s) with
    | .exn _ =>
      match politekaCreateSimpleArticleData s with
      | .error e => .error e
      | .ok data =>
        match mkNewsItem source s.url data with
        | .error e => .error e
        | .ok it =>
          match politekaProcessBatch source oracle rest with
          | .error e => .error e
          | .ok tail => .ok (it :: tail)
    | .val none => politekaProcessBatch source oracle rest
    | .val (some it) =>
      match politekaProcessBatch source oracle rest with
      | .error e => .error e
      | .ok tail => .ok (it :: tail)

/-- `range(0, len(xs), 20)` slicing, one slice per unit of fuel; each slice
consumes at least one element, so `fuel = input length` suffices. -/
def chunksOf20Aux {α : Type} : Nat → List α → List (List α)
  | 0, _ => []
  | _ + 1, [] => []
  | fuel + 1, x :: xs => ((x :: xs).take 20) :: chunksOf20Aux fuel (xs.drop 19)

/-- Fixed-size batches of 20 (`batch_size = 20` in `_process_articles_async`). -/
def chunksOf20 {α : Type} (l : List α) : List (List α) := chunksOf20Aux l.length l

/-! ### `_process_articles_async` (per source)

Split into same-domain (full parse) vs cross-domain (stub-only) sets; build
the stub-only items first, then run the full-parse set in batches of 20; the
final list is `simple_news_items + full_news_items`.  (The Python method also
receives `until_date`; the pravda and politeka variants never read it.) -/

def pravdaSimpleItems (source : String) : List Stub → Except String (List NewsItem)
  | [] => .ok []
  | s :: rest =>
    match pravdaCreateSimpleArticleData s with
    | .error e => .error e
    | .ok data =>
      match mkNewsItem source s.url data with
      | .error e => .error e
      | .ok it =>
        match pravdaSimpleItems source rest with
        | .error e => .error e
        | .ok tail => .ok (it :: tail)

/-- Epravda builds the article data, then date-filters on the stub timestamp
before constructing and appending the item. -/
def epravdaSimpleItems (source : String) (untilDate : Option PyDateTime) :
    List Stub → Except String (List NewsItem)
  | [] => .ok []
  | s :: rest =>
    match epravdaCreateSimpleArticleData s with
    | .error e => .error e
    | .ok data =>
      if untilDate.isNone || isDateValid s.datetime untilDate then
        match mkNewsItem source s.url data with
        | .error e => .error e
        | .ok it =>
          match epravdaSimpleItems source untilDate rest with
          | .error e => .error e
          | .ok tail => .ok (it :: tail)
      else epravdaSimpleItems source untilDate rest

def politekaSimpleItems (source : String) : List Stub → Except String (List NewsItem)
  | [] => .ok []
  | s :: rest =>
    match politekaCreateSimpleArticleData s with
    | .error e => .error e
    | .ok data =>
      match mkNewsItem source s.url data with
      | .error e => .error e
      | .ok it =>
        match politekaSimpleItems source rest with
        | .error e => .error e
        | .ok tail => .ok (it :: tail)

def pravdaBatchLoop (source : String) (oracle : Stub → FetchRes) :
    List (List Stub) → Except String (List NewsItem)
  | [] => .ok []
  | b :: bs =>
    match pravdaProcessBatch source oracle b with
    | .error e => .error e
    | .ok r =>
      match pravdaBatchLoop source oracle bs with
      | .error e => .error e
      | .ok t => .ok (r ++ t)

def epravdaBatchLoop (source : String) (oracle : Stub → FetchRes)
    (untilDate : Option PyDateTime) : List (List Stub) → Except String (List NewsItem)
  | [] => .ok []
  | b :: bs =>
    match epravdaProcessBatch source oracle untilDate b with
    | .error e => .error e
    | .ok r =>
      match epravdaBatchLoop source oracle untilDate bs with
      | .error e => .error e
      | .ok t => .ok (r ++ t)

def politekaBatchLoop (source : String) (oracle : Stub → FetchRes) :
    List (List Stub) → Except String (List NewsItem)
  | [] => .ok []
  | b :: bs =>
    match politekaProcessBatch source oracle b with
    | .error e => .error e
    | .ok r =>
      match politekaBatchLoop source oracle bs with
      | .error e => .error e
      | .ok t => .ok (r ++ t)

def pravdaProcessArticlesAsync (source : String) (oracle : Stub → FetchRes)
    (articles : List Stub) : Except String (List NewsItem) :=
  if articles.isEmpty then .ok []
  else
    let fullSet := articles.filter (fun a => shouldParseFullContent source a.url)
    let simpleSet := articles.filter (fun a => !shouldParseFullContent source a.url)
    match pravdaSimpleItems source simpleSet with
    | .error e => .error e
    | .ok simpleItems =>
      match pravdaBatchLoop source oracle (chunksOf20 fullSet) with
      | .error e => .error e
      | .ok fullItems => .ok (simpleItems ++ fullItems)

def epravdaProcessArticlesAsync (source : String) (oracle : Stub → FetchRes)
    (untilDate : Option PyDateTime) (articles : List Stub) : Except String (List NewsItem) :=
  if articles.isEmpty then .ok []
  else
    let fullSet := articles.filter (fun a => shouldParseFullContent source a.url)
    let simpleSet := articles.filter (fun a => !shouldParseFullContent source a.url)
    match epravdaSimpleItems source untilDate simpleSet with
    | .error e => .error e
    | .ok simpleItems =>
      match epravdaBatchLoop source oracle untilDate (chunksOf20 fullSet) with
      | .error e => .error e
      | .ok fullItems => .ok (simpleItems ++ fullItems)

def politekaProcessArticlesAsync (source : String) (oracle : Stub → FetchRes)
    (articles : List Stub) : Except String (List NewsItem) :=
  if articles.isEmpty then .ok []
  else
    let fullSet := articles.filter (fun a => politekaShouldParseFullContent source a.url)
    let simpleSet := articles.filter (fun a => !politekaShouldParseFullContent source a.url)
    match politekaSimpleItems source simpleSet with
    | .error e => .error e
    | .ok simpleItems =>
      match politekaBatchLoop source oracle (chunksOf20 fullSet) with
      | .error e => .error e
      | .ok fullItems => .ok (simpleItems ++ fullItems)

/-! ### Epravda date-sweep pagination (`_generate_date_urls`) -/

def pad2 (n : Nat) : String := if n < 10 then "0" ++ toString n else toString n

def pad4 (n : Nat) : String :=
  if n < 10 then "000" ++ toString n
  else if n < 100 then "00" ++ toString n
  else if n < 1000 then "0" ++ toString n
  else toString n

/-- `f"{self.news_url}/date_{current_date.strftime('%d%m%Y')}/"` with
`news_url = "https://epravda.com.ua/news"`. -/
def epravdaDateUrl (ord : Nat) : String :=
  let c := civilFromDays ord
  "https://epravda.com.ua/news/date_" ++ pad2 c.2.2 ++ pad2 c.2.1 ++ pad4 c.1 ++ "/"

/-- The `while current_date >= end_date` loop, one iteration per unit of fuel;
`generateDateUrls` supplies `start + 1 - end` units, exactly the number of
iterations the loop performs (dates are day ordinals, `current -= 1 day` is
ordinal decrement). -/
def generateDateUrlsAux : Nat → Nat → List String
  | 0, _ => []
  | fuel + 1, current => epravdaDateUrl current :: generateDateUrlsAux fuel (current - 1)

/-- `EpravdaNewsParser._generate_date_urls(start_date, end_date)`: when
`start < end` the loop body never runs (`start + 1 - end = 0` in `Nat`). -/
def generateDateUrls (startDay endDay : Nat) : List String :=
  generateDateUrlsAux (startDay + 1 - endDay) startDay

/-! ### `parse_news` (per source)

The network-and-markup front end is an oracle: for pravda, `listing` is the
result of fetching and extracting the single news page (`None` models a failed
content fetch); for epravda and politeka, `pageOracle url` is the stub list a
listing URL yields (page-level faults are caught inside
`_fetch_single_date_page` / `_fetch_single_page` and yield `[]`).  The
`try`/`except` wrapper converts any fault text `e` escaping the body into a
`failed` collection; a fault in that construction itself propagates. -/

def pravdaParseNewsBody (source : String) (now : PyDateTime)
    (listing : Option (List Stub)) (oracle : Stub → FetchRes)
    (untilDate : Option PyDateTime) : Except String NewsCollection :=
  match listing with
  | none => mkNewsCollection source [] now 0 "failed" (some "Не удалось получить контент страницы")
  | some allArticles =>
    if allArticles.isEmpty then mkNewsCollection source [] now 0 "success" none
    else
      let filtered := allArticles.filter
        (fun a => untilDate.isNone || isDateValid a.datetime untilDate)
      match pravdaProcessArticlesAsync source oracle filtered with
      | .error e => .error e
      | .ok items => mkNewsCollection source items now items.length "success" none

def pravdaParseNews (source : String) (now : PyDateTime)
    (listing : Option (List Stub)) (oracle : Stub → FetchRes)
    (untilDate : Option PyDateTime) : Except String NewsCollection :=
  match pravdaParseNewsBody source now listing oracle untilDate with
  | .ok c => .ok c
  | .error e => mkNewsCollection source [] now 0 "failed" (some e)

/-- `end_date = until_date.date() if until_date else start_date`. -/
def epravdaEndDay (untilDate : Option PyDateTime) (today : Nat) : Nat :=
  match untilDate with
  | some u => u.day
  | none => today

def epravdaParseNewsBody (source : String) (now : PyDateTime) (today : Nat)
    (pageOracle : String → List Stub) (oracle : Stub → FetchRes)
    (untilDate : Option PyDateTime) : Except String NewsCollection :=
  let startDay := today
  let endDay := epravdaEndDay untilDate today
  let dateUrls := generateDateUrls startDay endDay
  let allArticles := (dateUrls.map pageOracle).flatten
  let uniqueArticles := dedupByUrl allArticles
  match epravdaProcessArticlesAsync source oracle untilDate uniqueArticles with
  | .error e => .error e
  | .ok items => mkNewsCollection source items now items.length "success" none

def epravdaParseNews (source : String) (now : PyDateTime) (today : Nat)
    (pageOracle : String → List Stub) (oracle : Stub → FetchRes)
    (untilDate : Option PyDateTime) : Except String NewsCollection :=
  match epravdaParseNewsBody source now today pageOracle oracle untilDate with
  | .ok c => .ok c
  | .error e => mkNewsCollection source [] now 0 "failed" (some e)

/-- `PolitekaNewsParser._generate_page_urls(base_url, max_pages)`. -/
def politekaGeneratePageUrls (baseUrl : String) (maxPages : Nat) : List String :=
  baseUrl :: (List.range' 2 (maxPages - 1)).map (fun p =>
    baseUrl ++ (if strContains baseUrl "?" then "&page=" else "?page=") ++ toString p)

/-- `PolitekaNewsParser._fetch_all_pages_async`: pages are crawled
sequentially; an empty page stops the crawl; with a boundary date, the
date-valid prefix of each page is kept and the crawl stops at the first
out-of-range stub. -/
def politekaFetchAllPages (pageOracle : String → List Stub)
    (untilDate : Option PyDateTime) : List String → List Stub
  | [] => []
  | u :: rest =>
    let page := pageOracle u
    if page.isEmpty then []
    else if untilDate.isSome then
      let valid := page.takeWhile (fun a => isDateValid a.datetime untilDate)
      if valid.length == page.length then
        valid ++ politekaFetchAllPages pageOracle untilDate rest
      else valid
    else page ++ politekaFetchAllPages pageOracle untilDate rest

def politekaParseNewsBody (source : String) (now : PyDateTime)
    (pageOracle : String → List Stub) (oracle : Stub → FetchRes)
    (untilDate : Option PyDateTime) : Except String NewsCollection :=
  let pageUrls := politekaGeneratePageUrls source 10
  let allArticles := politekaFetchAllPages pageOracle untilDate pageUrls
  let uniqueArticles := dedupByUrl allArticles
  match politekaProcessArticlesAsync source oracle uniqueArticles with
  | .error e => .error e
  | .ok items => mkNewsCollection source items now items.length "success" none

def politekaParseNews (source : String) (now : PyDateTime)
    (pageOracle : String → List Stub) (oracle : Stub → FetchRes)
    (untilDate : Option PyDateTime) : Except String NewsCollection :=
  match politekaParseNewsBody source now pageOracle oracle untilDate with
  | .ok c => .ok c
  | .error e => mkNewsCollection source [] now 0 "failed" (some e)

/-- The items of a `parse_news` outcome (empty when the call raised). -/
def collItems : Except String NewsCollection → List NewsItem
  | .ok c => c.items
  | .error _ => []

/-! ### `NewsService` routing (`app/services/news_service.py`) -/

inductive SourceKind where
  | epravda | pravda | politeka
  deriving DecidableEq, Repr

/-- The `self.parsers` dict in registration order (epravda, pravda, politeka),
after `sorted(..., key=len, reverse=True)`: the lengths 14 > 13 > 12 are
strictly decreasing, so the stable sort keeps the registration order. -/
def sortedDomains : List (String × SourceKind) :=
  [("epravda.com.ua", SourceKind.epravda),
   ("pravda.com.ua", SourceKind.pravda),
   ("politeka.net", SourceKind.politeka)]

/-- `NewsService._get_parser_for_url`: first registered domain occurring as a
substring of the lowercased URL. -/
def getParserForUrl (url : String) : Option SourceKind :=
  let urlLower := strToLower url
  (sortedDomains.find? (fun p => strContains urlLower p.1)).map (fun p => p.2)

/-- `NewsService.parse_news` up to parser dispatch: a URL matching no domain
raises `ValueError` (re-raised by the service's own `except`). -/
def newsServiceRoute (url : String) : Except String SourceKind :=
  match getParserForUrl url with
  | none => .error ("Парсер для URL " ++ url ++ " не найден")
  | some k => .ok k

/-! ### Product parameter validation (`app/parsers/base.py`,
`app/parsers/product_parsers/hotline_parser.py`) -/

def validSortOptions : List String := ["price", "price_desc", "shop", "shop_desc"]

/-- The inner `count_limit` bound check (`if count_limit is not None: ...`). -/
def countLimitOutOfRange : Option Int → Bool
  | some c => c < 1 || 100 < c
  | none => false

/-- `BaseParser._validate_parameters(timeout_limit, count_limit, sort_by)`. -/
def validateParameters (timeoutLimit : Int) (countLimit : Option Int)
    (sortBy : String) : Except String Unit :=
  if timeoutLimit < 5 || 300 < timeoutLimit then
    .error "timeout_limit должен быть между 5 и 300 секундами"
  else if countLimitOutOfRange countLimit then
    .error "count_limit должен быть между 1 и 100"
  else if !(validSortOptions.contains sortBy) then
    .error "sort_by должен быть одним из допустимых значений"
  else .ok ()

/-- `BaseParser._validate_url(url, domain)`. -/
def productValidateUrl (url domain : String) : Bool :=
  if strIsEmpty url then false
  else if !(strContains (strToLower url) (strToLower domain)) then false
  else strStartsWith url "https://"

/-- The validation gate at the top of `HotlineParser.parse_product`
(lines 57-60): parameter validation, then the hotline.ua URL check; any
`ValueError` raised there is re-raised to the caller by the method's
`except`. -/
def hotlineParseProductCheck (url : String) (timeoutLimit : Int)
    (countLimit : Option Int) (sortBy : String) : Except String Unit :=
  match validateParameters timeoutLimit countLimit sortBy with
  | .error e => .error e
  | .ok () =>
    if !(productValidateUrl url "hotline.ua") then
      .error ("Неподдерживаемый URL: " ++ url)
    else .ok ()

/-! ## General lemmas -/

theorem listIsPrefix_append (a b c : List Char) :
    listIsPrefix (a ++ b) (a ++ c) = listIsPrefix b c := by
  induction a with
  | nil => rfl
  | cons x xs ih => simp [listIsPrefix, ih]

theorem listIsPrefix_self_append (a b : List Char) :
    listIsPrefix a (a ++ b) = true := by
  have h := listIsPrefix_append a [] b
  rw [List.append_nil] at h
  rw [h]
  rfl

theorem strStartsWith_https_of_protocol_relative {t : String}
    (h : strStartsWith t "//" = true) :
    strStartsWith ("https:" ++ t) "https://" = true := by
  unfold strStartsWith at *
  have hd : ("https://" : String).data = ("https:" : String).data ++ ("//" : String).data := by
    decide
  have hd2 : ("https:" ++ t : String).data = ("https:" : String).data ++ t.data := rfl
  rw [hd, hd2, listIsPrefix_append]
  exact h

theorem strStartsWith_append_self (p t : String) :
    strStartsWith (p ++ t) p = true := by
  unfold strStartsWith
  have hd : (p ++ t : String).data = p.data ++ t.data := rfl
  rw [hd]
  exact listIsPrefix_self_append _ _

/-- Every URL surviving `validate_image_urls` starts with `https://`. -/
theorem validateImageUrls_https {l : List String} {u : String}
    (h : u ∈ validateImageUrls l) : strStartsWith u "https://" = true := by
  unfold validateImageUrls at h
  rcases List.mem_filterMap.mp h with ⟨x, _, hx⟩
  by_cases h1 : strIsEmpty (pyStrip x) = true
  · simp [h1] at hx
  · simp only [eq_false_of_ne_true h1, if_false] at hx
    by_cases h2 : strStartsWith (pyStrip x) "//" = true
    · simp only [h2, if_true] at hx
      cases hx
      exact strStartsWith_https_of_protocol_relative h2
    · simp only [eq_false_of_ne_true h2, if_false] at hx
      by_cases h3 : strStartsWith (pyStrip x) "/" = true
      · simp [h3] at hx
      · simp only [eq_false_of_ne_true h3, if_false] at hx
        by_cases h4 : strStartsWith (pyStrip x) "https://" = true
        · simp only [h4, if_true] at hx
          cases hx
          exact h4
        · simp only [eq_false_of_ne_true h4, if_false] at hx
          cases hx
          exact strStartsWith_append_self "https://" (pyStrip x)

/-- A non-`None` result of `validate_video_url` starts with `https://`. -/
theorem validateVideoUrl_https {v : Option String} {u : String}
    (h : validateVideoUrl v = some u) : strStartsWith u "https://" = true := by
  unfold validateVideoUrl at h
  cases v with
  | none => simp at h
  | some s =>
    simp only at h
    by_cases h1 : strIsEmpty (pyStrip s) = true
    · simp [h1] at h
    · simp only [eq_false_of_ne_true h1, if_false] at h
      by_cases h2 : strStartsWith (pyStrip s) "//" = true
      · simp only [h2, if_true] at h
        cases h
        exact strStartsWith_https_of_protocol_relative h2
      · simp only [eq_false_of_ne_true h2, if_false] at h
        by_cases h3 : strStartsWith (pyStrip s) "https://" = true
        · simp only [h3, if_true] at h
          cases h
          exact h3
        · simp only [eq_false_of_ne_true h3, if_false] at h
          cases h
          exact strStartsWith_append_self "https://" (pyStrip s)

/-- Field content of a successfully constructed `ArticleData`. -/
theorem mkArticleData_ok {t cb : String} {imgs : List String} {pub : Option PyDateTime}
    {auth : Option String} {vw : Option Int} {cms : List String} {lk dk : Option Int}
    {vu : Option String} {d : ArticleData}
    (h : mkArticleData t cb imgs pub auth vw cms lk dk vu = .ok d) :
    d = { title := cleanText t, content_body := cleanText cb,
          image_urls := validateImageUrls imgs, published_at := pub,
          author := auth.map cleanText, views := vw,
          comments := validateComments cms, likes := lk, dislikes := dk,
          video_url := validateVideoUrl vu } := by
  unfold mkArticleData at h
  split_ifs at h
  all_goals
    first
      | exact (Except.ok.inj h).symm
      | exact absurd h (by simp)

/-- Field content of a successfully constructed `NewsItem`, for an article URL
already in `https://` form. -/
theorem mkNewsItem_ok_fields {src u : String} {data : ArticleData} {it : NewsItem}
    (hu : strStartsWith u "https://" = true)
    (h : mkNewsItem src u data = .ok it) :
    it.url = u ∧ it.article_data = data := by
  unfold mkNewsItem at h
  have hvu : validateNewsUrl u = .ok u := by
    unfold validateNewsUrl
    rw [hu]
    simp
  cases hs : validateNewsUrl src with
  | error e => rw [hs] at h; cases h
  | ok s' =>
    rw [hs, hvu] at h
    injection h with h
    rw [← h]
    exact ⟨rfl, rfl⟩

/-- The article data of a successfully constructed `NewsItem` (no URL shape
assumption). -/
theorem mkNewsItem_ok_data {src u : String} {data : ArticleData} {it : NewsItem}
    (h : mkNewsItem src u data = .ok it) : it.article_data = data := by
  unfold mkNewsItem at h
  cases hs : validateNewsUrl src with
  | error e => rw [hs] at h; cases h
  | ok s' =>
    rw [hs] at h
    cases hu : validateNewsUrl u with
    | error e => rw [hu] at h; cases h
    | ok u' =>
      rw [hu] at h
      injection h with h
      rw [← h]

/-- Field content of a successfully constructed `NewsCollection`. -/
theorem mkNewsCollection_ok {src : String} {items : List NewsItem} {now : PyDateTime}
    {ta : Nat} {st : String} {err : Option String} {c : NewsCollection}
    (h : mkNewsCollection src items now ta st err = .ok c) :
    c = { source := src, items := items, parsed_at := now, total_items := items.length,
          parse_status := st, error_message := err } := by
  unfold mkNewsCollection at h
  split_ifs at h
  all_goals
    first
      | exact (Except.ok.inj h).symm
      | exact absurd h (by simp)

/-- `NewsCollection` construction succeeds for an `https://` source and an
allowed status. -/
theorem mkNewsCollection_ok_of_valid (src : String) (items : List NewsItem)
    (now : PyDateTime) (ta : Nat) (st : String) (err : Option String)
    (hsrc : strStartsWith src "https://" = true)
    (hst : (st == "success" || st == "partial" || st == "failed") = true) :
    mkNewsCollection src items now ta st err =
      .ok { source := src, items := items, parsed_at := now,
            total_items := items.length, parse_status := st, error_message := err } := by
  simp [mkNewsCollection, hsrc, hst]

/-! ## Claim C5 -/

/-- C5: every `NewsCollection` produced by any code path satisfies
`total_items == len(items)`: the `calculate_total_items` validator recomputes
the count from the already-validated `items` list at construction, so the
`total_items` argument supplied by the caller cannot set an independent
value. -/
theorem claim_C5_theorem (source : String) (items : List NewsItem) (now : PyDateTime)
    (totalArg : Nat) (status : String) (err : Option String) (c : NewsCollection)
    (h : mkNewsCollection source items now totalArg status err = .ok c) :
    c.total_items = c.items.length := by
  rw [mkNewsCollection_ok h]

/-- Witness for C5: a concrete construction where the caller passes
`total_items = 999` for an empty item list, and the stored count is still
`len(items) = 0`. -/
theorem claim_C5_witness :
    ({ source := "https://pravda.com.ua/news", items := [], parsed_at := { day := 0, sod := 0 },
       total_items := 0, parse_status := "success", error_message := none } : NewsCollection).total_items =
    ({ source := "https://pravda.com.ua/news", items := [], parsed_at := { day := 0, sod := 0 },
       total_items := 0, parse_status := "success", error_message := none } : NewsCollection).items.length :=
  claim_C5_theorem "https://pravda.com.ua/news" [] { day := 0, sod := 0 } 999 "success" none _ (by rfl)

/-! ## Claim C7 -/

/-- C7: in any successfully constructed `ArticleData`, every entry of
`image_urls` and every non-absent `video_url` starts with `https://`
(protocol-relative inputs are prefixed with `https:`, root-relative image URLs
are dropped, other non-`https` inputs are prefixed with `https://`). -/
theorem claim_C7_theorem (t cb : String) (imgs : List String) (pub : Option PyDateTime)
    (auth : Option String) (vw : Option Int) (cms : List String) (lk dk : Option Int)
    (vu : Option String) (d : ArticleData) (u v : String)
    (h : mkArticleData t cb imgs pub auth vw cms lk dk vu = .ok d) :
    (u ∈ d.image_urls → strStartsWith u "https://" = true) ∧
    (d.video_url = some v → strStartsWith v "https://" = true) := by
  rw [mkArticleData_ok h]
  exact ⟨fun hu => validateImageUrls_https hu, fun hv => validateVideoUrl_https hv⟩

def sampleArticleData : ArticleData :=
  { title := "Sample article", content_body := "Body text",
    image_urls := ["https://cdn.example/img.png"], published_at := none,
    author := none, views := none, comments := [], likes := none, dislikes := none,
    video_url := some "https://example.com/v.mp4" }

/-- Witness for C7: a protocol-relative image URL and a bare-host video URL are
both rewritten to `https://` form. -/
theorem claim_C7_witness :
    ("https://cdn.example/img.png" ∈ sampleArticleData.image_urls →
      strStartsWith "https://cdn.example/img.png" "https://" = true) ∧
    (sampleArticleData.video_url = some "https://example.com/v.mp4" →
      strStartsWith "https://example.com/v.mp4" "https://" = true) :=
  claim_C7_theorem "Sample article" "Body text" ["//cdn.example/img.png"] none none none
    [] none none (some "example.com/v.mp4") sampleArticleData
    "https://cdn.example/img.png" "https://example.com/v.mp4" (by rfl)

/-! ## Claim C8 -/

/-- C8 counterexample: `count_limit = 101` lies inside the claimed acceptance
range `[1, 1000]`, yet the validation gate of `parse_product` rejects it with a
`ValueError`. -/
theorem claim_C8_counterexample :
    ((1 : Int) ≤ 101 ∧ (101 : Int) ≤ 1000) ∧
    hotlineParseProductCheck "https://hotline.ua/ua/mobile/apple-iphone-15/" 30 (some 101)
      "price" = .error "count_limit должен быть между 1 и 100" :=
  ⟨by decide, by rfl⟩

/-- C8 amended: `parse_product` accepts every integer `count_limit` in the
range `[1, 100]` (not `[1, 1000]`): for an otherwise valid request no value in
that range, and no omitted `count_limit`, is rejected with a
parameter-validation error. -/
theorem claim_C8_theorem (t c : Int) (sortBy url : String)
    (ht1 : 5 ≤ t) (ht2 : t ≤ 300) (hc1 : 1 ≤ c) (hc2 : c ≤ 100)
    (hs : validSortOptions.contains sortBy = true)
    (hu : productValidateUrl url "hotline.ua" = true) :
    hotlineParseProductCheck url t (some c) sortBy = .ok () ∧
    hotlineParseProductCheck url t none sortBy = .ok () := by
  have e1 : (decide (t < 5) || decide (300 < t)) = false := by
    simp only [Bool.or_eq_false_iff, decide_eq_false_iff_not]
    omega
  have e2 : countLimitOutOfRange (some c) = false := by
    simp only [countLimitOutOfRange, Bool.or_eq_false_iff, decide_eq_false_iff_not]
    omega
  have hv1 : validateParameters t (some c) sortBy = .ok () := by
    unfold validateParameters
    rw [e1, e2, hs]
    rfl
  have hv2 : validateParameters t none sortBy = .ok () := by
    unfold validateParameters
    rw [e1, hs]
    rfl
  constructor
  · unfold hotlineParseProductCheck
    rw [hv1]
    simp [hu]
  · unfold hotlineParseProductCheck
    rw [hv2]
    simp [hu]

/-- Witness for C8 at `timeout_limit = 30`, `count_limit = 100`,
`sort_by = "price"`. -/
theorem claim_C8_witness :
    hotlineParseProductCheck "https://hotline.ua/ua/mobile/apple-iphone-15/" 30 (some 100)
      "price" = .ok () ∧
    hotlineParseProductCheck "https://hotline.ua/ua/mobile/apple-iphone-15/" 30 none
      "price" = .ok () :=
  claim_C8_theorem 30 100 "price" "https://hotline.ua/ua/mobile/apple-iphone-15/"
    (by decide) (by decide) (by decide) (by decide) (by decide) (by decide)

/-! ## Claim C9 -/

theorem generateDateUrlsAux_spec (fuel : Nat) : ∀ cur,
    generateDateUrlsAux fuel cur = (List.range fuel).map (fun i => epravdaDateUrl (cur - i)) := by
  induction fuel with
  | zero => intro cur; rfl
  | succ n ih =>
    intro cur
    rw [generateDateUrlsAux, ih (cur - 1), List.range_succ_eq_map]
    simp only [List.map_cons, List.map_map, Nat.sub_zero]
    congr 1
    apply List.map_congr_left
    intro i _
    simp only [Function.comp_apply]
    congr 1
    omega

/-- C9: the epravda date-sweep generates one listing URL per calendar day from
today down to and including the boundary date (`s - e + 1` of them, the
`i`-th encoding the day `s - i`), just today's URL when start and boundary
coincide (the no-boundary case sets `end_date = start_date`), and each URL
encodes its date as `DDMMYYYY`; concretely, for today 2025-08-29 and boundary
2025-08-28 exactly the two URLs encoding `29082025` and `28082025` are
generated, in that order. -/
theorem claim_C9_theorem (s e i : Nat) (he : e ≤ s) (hi : i ≤ s - e) :
    (generateDateUrls s e).length = s - e + 1 ∧
    (generateDateUrls s e)[i]? = some (epravdaDateUrl (s - i)) ∧
    generateDateUrls s s = [epravdaDateUrl s] ∧
    generateDateUrls (daysFromCivil 2025 8 29) (daysFromCivil 2025 8 28) =
      ["https://epravda.com.ua/news/date_29082025/",
       "https://epravda.com.ua/news/date_28082025/"] ∧
    epravdaDateUrl (daysFromCivil 2025 8 29) = "https://epravda.com.ua/news/date_29082025/" := by
  refine ⟨?_, ?_, ?_, by rfl, by rfl⟩
  · unfold generateDateUrls
    rw [generateDateUrlsAux_spec]
    simp
    omega
  · unfold generateDateUrls
    rw [generateDateUrlsAux_spec]
    have hlt : i < s + 1 - e := by omega
    rw [List.getElem?_map, List.getElem?_range hlt]
    rfl
  · unfold generateDateUrls
    rw [generateDateUrlsAux_spec]
    have h1 : s + 1 - s = 1 := by omega
    rw [h1]
    show [epravdaDateUrl (s - 0)] = [epravdaDateUrl s]
    rw [Nat.sub_zero]

/-- Witness for C9 at the concrete scenario of the spec (today 2025-08-29,
boundary 2025-08-28, second URL). -/
theorem claim_C9_witness :
    (generateDateUrls (daysFromCivil 2025 8 29) (daysFromCivil 2025 8 28)).length =
      daysFromCivil 2025 8 29 - daysFromCivil 2025 8 28 + 1 ∧
    (generateDateUrls (daysFromCivil 2025 8 29) (daysFromCivil 2025 8 28))[1]? =
      some (epravdaDateUrl (daysFromCivil 2025 8 29 - 1)) ∧
    generateDateUrls (daysFromCivil 2025 8 29) (daysFromCivil 2025 8 29) =
      [epravdaDateUrl (daysFromCivil 2025 8 29)] ∧
    generateDateUrls (daysFromCivil 2025 8 29) (daysFromCivil 2025 8 28) =
      ["https://epravda.com.ua/news/date_29082025/",
       "https://epravda.com.ua/news/date_28082025/"] ∧
    epravdaDateUrl (daysFromCivil 2025 8 29) = "https://epravda.com.ua/news/date_29082025/" :=
  claim_C9_theorem (daysFromCivil 2025 8 29) (daysFromCivil 2025 8 28) 1
    (by decide) (by decide)

/-! ## Claim C10 -/

/-- C10: parser selection tests the known domain strings (longest first:
`epravda.com.ua`, then `pravda.com.ua`, then `politeka.net`) as substrings of
the whole lowercased URL, not only of its host; a URL whose path merely
contains such a string selects that source's parser, and a URL containing none
of the three makes the service raise instead of returning a collection. -/
theorem claim_C10_theorem (url1 url2 url3 url4 : String)
    (h1 : strContains (strToLower url1) "epravda.com.ua" = true)
    (h2a : strContains (strToLower url2) "pravda.com.ua" = true)
    (h2b : strContains (strToLower url2) "epravda.com.ua" = false)
    (h3a : strContains (strToLower url3) "politeka.net" = true)
    (h3b : strContains (strToLower url3) "epravda.com.ua" = false)
    (h3c : strContains (strToLower url3) "pravda.com.ua" = false)
    (h4a : strContains (strToLower url4) "epravda.com.ua" = false)
    (h4b : strContains (strToLower url4) "pravda.com.ua" = false)
    (h4c : strContains (strToLower url4) "politeka.net" = false) :
    getParserForUrl url1 = some SourceKind.epravda ∧
    getParserForUrl url2 = some SourceKind.pravda ∧
    getParserForUrl url3 = some SourceKind.politeka ∧
    getParserForUrl "https://example.com/epravda.com.ua" = some SourceKind.epravda ∧
    newsServiceRoute url4 = .error ("Парсер для URL " ++ url4 ++ " не найден") := by
  refine ⟨?_, ?_, ?_, by rfl, ?_⟩
  · simp [getParserForUrl, sortedDomains, List.find?, h1]
  · simp [getParserForUrl, sortedDomains, List.find?, h2a, h2b]
  · simp [getParserForUrl, sortedDomains, List.find?, h3a, h3b, h3c]
  · simp [newsServiceRoute, getParserForUrl, sortedDomains, List.find?, h4a, h4b, h4c]

/-- Witness for C10 at four concrete URLs, one per routing scenario. -/
theorem claim_C10_witness :
    getParserForUrl "https://epravda.com.ua/news" = some SourceKind.epravda ∧
    getParserForUrl "https://www.pravda.com.ua/news" = some SourceKind.pravda ∧
    getParserForUrl "https://politeka.net/uk/newsfeed" = some SourceKind.politeka ∧
    getParserForUrl "https://example.com/epravda.com.ua" = some SourceKind.epravda ∧
    newsServiceRoute "https://example.com/other" =
      .error ("Парсер для URL " ++ "https://example.com/other" ++ " не найден") :=
  claim_C10_theorem "https://epravda.com.ua/news" "https://www.pravda.com.ua/news"
    "https://politeka.net/uk/newsfeed" "https://example.com/other"
    (by decide) (by decide) (by decide) (by decide) (by decide) (by decide)
    (by decide) (by decide) (by decide)

/-! ## Claim C2 -/

/-- C2 counterexample: for a source URL not starting with `https://`, the
`NewsCollection` constructed inside the `except` handler itself raises
(`source должен быть полным URL`), so `parse_news` does raise to its caller. -/
theorem claim_C2_counterexample :
    pravdaParseNews "http://x" { day := 0, sod := 0 } none (fun _ => FetchRes.failed) none =
      .error "source должен быть полным URL" := by rfl

/-- C2 amended: for every call whose source URL starts with `https://` (so the
failed-collection construction in the `except` handler cannot itself raise),
`parse_news` never raises: any fault text `e` escaping the inner parsing steps
is converted into a returned collection with `parse_status = "failed"`, empty
`items`, and `error_message = e` (shown for the pravda and politeka parsers,
the two cited sources; the epravda wrapper is textually identical). -/
theorem claim_C2_theorem (source : String) (now : PyDateTime) (listing : Option (List Stub))
    (orc : Stub → FetchRes) (untilDate : Option PyDateTime) (e : String)
    (source2 : String) (now2 : PyDateTime) (pOrc2 : String → List Stub)
    (orc2 : Stub → FetchRes) (until2 : Option PyDateTime) (e2 : String)
    (h1 : strStartsWith source "https://" = true)
    (h2 : strStartsWith source2 "https://" = true) :
    (pravdaParseNews source now listing orc untilDate).isOk = true ∧
    (pravdaParseNewsBody source now listing orc untilDate = .error e →
      pravdaParseNews source now listing orc untilDate =
        .ok { source := source, items := [], parsed_at := now, total_items := 0,
              parse_status := "failed", error_message := some e }) ∧
    (politekaParseNews source2 now2 pOrc2 orc2 until2).isOk = true ∧
    (politekaParseNewsBody source2 now2 pOrc2 orc2 until2 = .error e2 →
      politekaParseNews source2 now2 pOrc2 orc2 until2 =
        .ok { source := source2, items := [], parsed_at := now2, total_items := 0,
              parse_status := "failed", error_message := some e2 }) := by
  refine ⟨?_, ?_, ?_, ?_⟩
  · cases hb : pravdaParseNewsBody source now listing orc untilDate with
    | ok c => simp [pravdaParseNews, hb, Except.isOk, Except.toBool]
    | error e' =>
      have hmk := mkNewsCollection_ok_of_valid source [] now 0 "failed" (some e') h1 (by decide)
      simp [pravdaParseNews, hb, hmk, Except.isOk, Except.toBool]
  · intro hberr
    unfold pravdaParseNews
    rw [hberr]
    exact mkNewsCollection_ok_of_valid source [] now 0 "failed" (some e) h1 (by decide)
  · cases hb : politekaParseNewsBody source2 now2 pOrc2 orc2 until2 with
    | ok c => simp [politekaParseNews, hb, Except.isOk, Except.toBool]
    | error e' =>
      have hmk := mkNewsCollection_ok_of_valid source2 [] now2 0 "failed" (some e') h2 (by decide)
      simp [politekaParseNews, hb, hmk, Except.isOk, Except.toBool]
  · intro hberr
    unfold politekaParseNews
    rw [hberr]
    exact mkNewsCollection_ok_of_valid source2 [] now2 0 "failed" (some e2) h2 (by decide)

def sampleNow : PyDateTime := { day := daysFromCivil 2025 8 29, sod := 0 }

/-- A listing stub whose root-relative URL makes `NewsItem` construction raise
inside the parsing body. -/
def relStub : Stub := { title := "Relative link story", url := "/rel", datetime := none }

def failedOracle : Stub → FetchRes := fun _ => FetchRes.failed

/-- Witness for C2: concrete pravda and politeka runs whose bodies raise a
`NewsItem` validation error, with `https://` source URLs. -/
theorem claim_C2_witness :
    (pravdaParseNews "https://www.pravda.com.ua/news" sampleNow (some [relStub])
      failedOracle none).isOk = true ∧
    (pravdaParseNewsBody "https://www.pravda.com.ua/news" sampleNow (some [relStub])
        failedOracle none =
        .error "Относительные URL не поддерживаются для source и url" →
      pravdaParseNews "https://www.pravda.com.ua/news" sampleNow (some [relStub])
          failedOracle none =
        .ok { source := "https://www.pravda.com.ua/news", items := [], parsed_at := sampleNow,
              total_items := 0, parse_status := "failed",
              error_message := some "Относительные URL не поддерживаются для source и url" }) ∧
    (politekaParseNews "https://politeka.net/uk/newsfeed" sampleNow (fun _ => [relStub])
      failedOracle none).isOk = true ∧
    (politekaParseNewsBody "https://politeka.net/uk/newsfeed" sampleNow (fun _ => [relStub])
        failedOracle none =
        .error "Относительные URL не поддерживаются для source и url" →
      politekaParseNews "https://politeka.net/uk/newsfeed" sampleNow (fun _ => [relStub])
          failedOracle none =
        .ok { source := "https://politeka.net/uk/newsfeed", items := [], parsed_at := sampleNow,
              total_items := 0, parse_status := "failed",
              error_message := some "Относительные URL не поддерживаются для source и url" }) :=
  claim_C2_theorem "https://www.pravda.com.ua/news" sampleNow (some [relStub]) failedOracle none
    "Относительные URL не поддерживаются для source и url"
    "https://politeka.net/uk/newsfeed" sampleNow (fun _ => [relStub]) failedOracle none
    "Относительные URL не поддерживаются для source и url"
    (by decide) (by decide)

/-! ## Claim C4 -/

/-- A same-domain stub, so `_should_parse_full_content` routes it to the
full-parse fan-out. -/
def sameDomainStub : Stub :=
  { title := "Story on the source domain", url := "https://pravda.com.ua/news/abc/",
    datetime := none }

/-- C4: evaluation at the failing input.  The stub is in the full-parse set,
and its per-article fetch/extract faults: `_parse_full_article` catches the
fault internally and returns `None`, `_process_single_article` logs
"используем базовые данные" yet returns `None`, and the batch loop skips
`None` — so the item is dropped from the returned collection instead of
falling back to the stub-only record.  The third conjunct shows the stub
fallback the code only performs when an exception object reaches
`asyncio.gather`, which the internal `try`/`except` of
`_process_single_article` makes unreachable for fetch/extract faults. -/
theorem claim_C4_theorem :
    shouldParseFullContent "https://pravda.com.ua/news" "https://pravda.com.ua/news/abc/" = true ∧
    pravdaParseNews "https://pravda.com.ua/news" sampleNow (some [sameDomainStub])
      (fun _ => FetchRes.failed) none =
      .ok { source := "https://pravda.com.ua/news", items := [], parsed_at := sampleNow,
            total_items := 0, parse_status := "success", error_message := none } ∧
    pravdaParseNews "https://pravda.com.ua/news" sampleNow (some [sameDomainStub])
      (fun _ => FetchRes.exn "boom") none =
      .ok { source := "https://pravda.com.ua/news",
            items := [{ source := "https://pravda.com.ua/news",
                        url := "https://pravda.com.ua/news/abc/",
                        article_data := { title := "Story on the source domain",
                                          content_body := "", image_urls := [],
                                          published_at := none, author := none,
                                          views := none, comments := [], likes := none,
                                          dislikes := none, video_url := none } }],
            parsed_at := sampleNow, total_items := 1, parse_status := "success",
            error_message := none } :=
  ⟨by decide, by rfl, by rfl⟩

/-! ## Pipeline infrastructure lemmas -/

theorem isDateValid_none_until (a : Option PyDateTime) : isDateValid a none = true := rfl

theorem isDateValid_of_filterCond {u : Option PyDateTime} {x : Option PyDateTime}
    (h : (u.isNone || isDateValid x u) = true) : isDateValid x u = true := by
  cases u with
  | none => exact isDateValid_none_until x
  | some v =>
    simp only [Option.isNone_some, Bool.false_or] at h
    exact h

theorem chunksOf20Aux_flatten {α : Type} : ∀ (fuel : Nat) (l : List α),
    l.length ≤ fuel → (chunksOf20Aux fuel l).flatten = l := by
  intro fuel
  induction fuel with
  | zero =>
    intro l hl
    have : l = [] := List.eq_nil_of_length_eq_zero (Nat.le_zero.mp hl)
    subst this
    rfl
  | succ n ih =>
    intro l hl
    cases l with
    | nil => rfl
    | cons x xs =>
      show ((x :: xs).take 20 ++ (chunksOf20Aux n (xs.drop 19)).flatten) = x :: xs
      rw [ih (xs.drop 19) (by simp only [List.length_drop]; simp only [List.length_cons] at hl; omega)]
      rw [List.take_succ_cons]
      show x :: (xs.take 19 ++ xs.drop 19) = x :: xs
      rw [List.take_append_drop]

theorem chunksOf20_flatten {α : Type} (l : List α) : (chunksOf20 l).flatten = l :=
  chunksOf20Aux_flatten l.length l (Nat.le_refl _)

/-! ### Deduplication lemmas -/

theorem dedupAux_sublist : ∀ (l : List Stub) (seen : List String),
    List.Sublist (dedupAux l seen) l := by
  intro l
  induction l with
  | nil => intro seen; exact List.Sublist.refl []
  | cons s rest ih =>
    intro seen
    unfold dedupAux
    by_cases hc : seen.contains s.url = true
    · rw [if_pos hc]
      exact List.Sublist.cons s (ih seen)
    · rw [if_neg hc]
      exact List.Sublist.cons₂ s (ih (s.url :: seen))

theorem dedupAux_not_seen : ∀ (l : List Stub) (seen : List String) (s : Stub),
    s ∈ dedupAux l seen → s.url ∉ seen := by
  intro l
  induction l with
  | nil => intro seen s h; simp [dedupAux] at h
  | cons x rest ih =>
    intro seen s h
    unfold dedupAux at h
    by_cases hc : seen.contains x.url = true
    · rw [if_pos hc] at h
      exact ih seen s h
    · rw [if_neg hc] at h
      rcases List.mem_cons.mp h with h1 | h2
      · subst h1
        intro hmem
        exact hc (List.elem_eq_true_of_mem hmem)
      · have := ih (x.url :: seen) s h2
        intro hmem
        exact this (List.mem_cons_of_mem _ hmem)

theorem dedupAux_urls_nodup : ∀ (l : List Stub) (seen : List String),
    ((dedupAux l seen).map (fun s => s.url)).Nodup := by
  intro l
  induction l with
  | nil => intro seen; simp [dedupAux]
  | cons x rest ih =>
    intro seen
    unfold dedupAux
    by_cases hc : seen.contains x.url = true
    · rw [if_pos hc]
      exact ih seen
    · rw [if_neg hc]
      simp only [List.map_cons, List.nodup_cons]
      refine ⟨?_, ih (x.url :: seen)⟩
      intro hmem
      rcases List.mem_map.mp hmem with ⟨t, ht, hturl⟩
      have := dedupAux_not_seen rest (x.url :: seen) t ht
      exact this (by rw [hturl]; exact List.mem_cons_self _ _)

theorem dedupAux_find : ∀ (l : List Stub) (seen : List String) (s : Stub),
    s ∈ dedupAux l seen → l.find? (fun t => t.url == s.url) = some s := by
  intro l
  induction l with
  | nil => intro seen s h; simp [dedupAux] at h
  | cons x rest ih =>
    intro seen s h
    unfold dedupAux at h
    by_cases hc : seen.contains x.url = true
    · rw [if_pos hc] at h
      have hs := dedupAux_not_seen rest seen s h
      have hne : x.url ≠ s.url := by
        intro heq
        exact hs (by rw [← heq]; exact List.mem_of_elem_eq_true hc)
      rw [List.find?_cons_of_neg _ (by simpa using hne)]
      exact ih seen s h
    · rw [if_neg hc] at h
      rcases List.mem_cons.mp h with h1 | h2
      · subst h1
        rw [List.find?_cons_of_pos _ (by simp)]
      · have hs := dedupAux_not_seen rest (x.url :: seen) s h2
        have hne : x.url ≠ s.url := by
          intro heq
          exact hs (by rw [← heq]; exact List.mem_cons_self _ _)
        rw [List.find?_cons_of_neg _ (by simpa using hne)]
        exact ih (x.url :: seen) s h2

theorem dedupAux_complete : ∀ (l : List Stub) (seen : List String) (t : Stub),
    t ∈ l → ¬(seen.contains t.url = true) →
    t.url ∈ (dedupAux l seen).map (fun s => s.url) := by
  intro l
  induction l with
  | nil => intro seen t ht _; simp at ht
  | cons x rest ih =>
    intro seen t ht hns
    unfold dedupAux
    by_cases hc : seen.contains x.url = true
    · rw [if_pos hc]
      rcases List.mem_cons.mp ht with h1 | h2
      · exact absurd (h1 ▸ hc) hns
      · exact ih seen t h2 hns
    · rw [if_neg hc]
      simp only [List.map_cons]
      by_cases hxu : t.url = x.url
      · rw [hxu]
        exact List.mem_cons_self _ _
      · rcases List.mem_cons.mp ht with h1 | h2
        · exact absurd (by rw [h1]) hxu
        · refine List.mem_cons_of_mem _ (ih (x.url :: seen) t h2 ?_)
          intro hcon
          rcases List.mem_cons.mp (List.mem_of_elem_eq_true hcon) with ha | hb
          · exact hxu ha
          · exact hns (List.elem_eq_true_of_mem hb)

theorem dedupByUrl_sublist (l : List Stub) : List.Sublist (dedupByUrl l) l :=
  dedupAux_sublist l []

theorem dedupByUrl_urls_nodup (l : List Stub) :
    ((dedupByUrl l).map (fun s => s.url)).Nodup := dedupAux_urls_nodup l []

theorem dedupByUrl_find {l : List Stub} {s : Stub} (h : s ∈ dedupByUrl l) :
    l.find? (fun t => t.url == s.url) = some s := dedupAux_find l [] s h

theorem dedupByUrl_complete {l : List Stub} {t : Stub} (h : t ∈ l) :
    t.url ∈ (dedupByUrl l).map (fun s => s.url) :=
  dedupAux_complete l [] t h (by simp)

theorem dedupByUrl_mem {l : List Stub} {s : Stub} (h : s ∈ dedupByUrl l) : s ∈ l :=
  (dedupByUrl_sublist l).subset h

/-! ### Projections of the cheap article records -/

theorem pravdaSimple_fields {s : Stub} {d : ArticleData}
    (h : pravdaCreateSimpleArticleData s = .ok d) :
    d.published_at = s.datetime ∧ d.content_body = cleanText s.subheader := by
  have h' : mkArticleData s.title s.subheader [] s.datetime none none [] none none none =
      .ok d := h
  rw [mkArticleData_ok h']
  exact ⟨rfl, rfl⟩

theorem epravdaSimple_fields {s : Stub} {d : ArticleData}
    (h : epravdaCreateSimpleArticleData s = .ok d) :
    d.published_at = s.datetime := by
  have h' : mkArticleData s.title "" [] s.datetime none none [] none none none =
      .ok d := h
  rw [mkArticleData_ok h']

theorem politekaSimple_fields {s : Stub} {d : ArticleData}
    (h : politekaCreateSimpleArticleData s = .ok d) :
    d.published_at = s.datetime ∧ d.content_body = cleanText s.description := by
  have h' : mkArticleData s.title s.description s.image_urls s.datetime none none [] none
      none none = .ok d := h
  rw [mkArticleData_ok h']
  exact ⟨rfl, rfl⟩

/-! ### `_process_single_article` lemmas -/

theorem pravdaProcessSingle_some {source : String} {s : Stub} {r : FetchRes} {it : NewsItem}
    (h : pravdaProcessSingle source s r = .val (some it)) :
    (strStartsWith s.url "https://" = true → it.url = s.url) ∧
    (s.datetime.isSome = true → it.article_data.published_at = s.datetime) := by
  cases r with
  | exn m => simp [pravdaProcessSingle] at h
  | failed => simp [pravdaProcessSingle] at h
  | parsed d =>
    simp only [pravdaProcessSingle] at h
    cases hmk : mkNewsItem source s.url
        (if s.datetime.isSome = true then { d with published_at := s.datetime } else d) with
    | error e => rw [hmk] at h; simp at h
    | ok it' =>
      rw [hmk] at h
      simp only [GatherRes.val.injEq, Option.some.injEq] at h
      subst h
      constructor
      · intro hpre
        exact (mkNewsItem_ok_fields hpre hmk).1
      · intro hsome
        rw [mkNewsItem_ok_data hmk, if_pos hsome]

theorem epravdaProcessSingle_some {source : String} {s : Stub} {r : FetchRes} {it : NewsItem}
    (h : epravdaProcessSingle source s r = .val (some it)) :
    (strStartsWith s.url "https://" = true → it.url = s.url) ∧
    it.article_data.published_at = s.datetime := by
  cases r with
  | exn m => simp [epravdaProcessSingle] at h
  | failed => simp [epravdaProcessSingle] at h
  | parsed d =>
    simp only [epravdaProcessSingle] at h
    cases hmk : mkNewsItem source s.url { d with published_at := s.datetime } with
    | error e => rw [hmk] at h; simp at h
    | ok it' =>
      rw [hmk] at h
      simp only [GatherRes.val.injEq, Option.some.injEq] at h
      subst h
      constructor
      · intro hpre
        exact (mkNewsItem_ok_fields hpre hmk).1
      · rw [mkNewsItem_ok_data hmk]

/-! ### Epravda pipeline lemmas -/

theorem epravdaSimpleItems_spec (source : String) (u : Option PyDateTime) :
    ∀ (l : List Stub) (items : List NewsItem),
    epravdaSimpleItems source u l = .ok items →
    ((∀ s ∈ l, strStartsWith s.url "https://" = true) →
      List.Sublist (items.map (fun it => it.url)) (l.map (fun s => s.url))) ∧
    (∀ it ∈ items, isDateValid it.article_data.published_at u = true) := by
  intro l
  induction l with
  | nil =>
    intro items h
    simp only [epravdaSimpleItems] at h
    injection h with h
    subst h
    exact ⟨fun _ => List.Sublist.refl _, by simp⟩
  | cons s rest ih =>
    intro items h
    simp only [epravdaSimpleItems] at h
    cases hd : epravdaCreateSimpleArticleData s with
    | error e => simp only [hd] at h; cases h
    | ok data =>
      simp only [hd] at h
      by_cases hf : (u.isNone || isDateValid s.datetime u) = true
      · rw [if_pos hf] at h
        cases hmk : mkNewsItem source s.url data with
        | error e => simp only [hmk] at h; cases h
        | ok it0 =>
          simp only [hmk] at h
          cases htl : epravdaSimpleItems source u rest with
          | error e => simp only [htl] at h; cases h
          | ok tail =>
            simp only [htl] at h
            injection h with h
            subst h
            rcases ih tail htl with ⟨ihu, ihd⟩
            constructor
            · intro hpre
              simp only [List.map_cons]
              have hit0 : it0.url = s.url :=
                (mkNewsItem_ok_fields (hpre s (List.mem_cons_self s rest)) hmk).1
              rw [hit0]
              exact List.Sublist.cons₂ _ (ihu (fun t ht => hpre t (List.mem_cons_of_mem _ ht)))
            · intro it hit
              rcases List.mem_cons.mp hit with h1 | h2
              · subst h1
                rw [mkNewsItem_ok_data hmk, epravdaSimple_fields hd]
                exact isDateValid_of_filterCond hf
              · exact ihd it h2
      · rw [if_neg hf] at h
        rcases ih items h with ⟨ihu, ihd⟩
        refine ⟨fun hpre => ?_, ihd⟩
        simp only [List.map_cons]
        exact List.Sublist.cons _ (ihu (fun t ht => hpre t (List.mem_cons_of_mem _ ht)))

theorem epravdaProcessBatch_spec (source : String) (orc : Stub → FetchRes)
    (u : Option PyDateTime) :
    ∀ (l : List Stub) (items : List NewsItem),
    epravdaProcessBatch source orc u l = .ok items →
    ((∀ s ∈ l, strStartsWith s.url "https://" = true) →
      List.Sublist (items.map (fun it => it.url)) (l.map (fun s => s.url))) ∧
    (∀ it ∈ items, isDateValid it.article_data.published_at u = true) := by
  intro l
  induction l with
  | nil =>
    intro items h
    simp only [epravdaProcessBatch] at h
    injection h with h
    subst h
    exact ⟨fun _ => List.Sublist.refl _, by simp⟩
  | cons s rest ih =>
    intro items h
    simp only [epravdaProcessBatch] at h
    cases hg : epravdaProcessSingle source s (orc s) with
    | exn m =>
      simp only [hg] at h
      cases hd : epravdaCreateSimpleArticleData s with
      | error e => simp only [hd] at h; cases h
      | ok data =>
        simp only [hd] at h
        cases hmk : mkNewsItem source s.url data with
        | error e => simp only [hmk] at h; cases h
        | ok it0 =>
          simp only [hmk] at h
          by_cases hf : (u.isNone || isDateValid s.datetime u) = true
          · rw [if_pos hf] at h
            cases htl : epravdaProcessBatch source orc u rest with
            | error e => simp only [htl] at h; cases h
            | ok tail =>
              simp only [htl] at h
              injection h with h
              subst h
              rcases ih tail htl with ⟨ihu, ihd⟩
              constructor
              · intro hpre
                simp only [List.map_cons]
                have hit0 : it0.url = s.url :=
                  (mkNewsItem_ok_fields (hpre s (List.mem_cons_self s rest)) hmk).1
                rw [hit0]
                exact List.Sublist.cons₂ _ (ihu (fun t ht => hpre t (List.mem_cons_of_mem _ ht)))
              · intro it hit
                rcases List.mem_cons.mp hit with h1 | h2
                · subst h1
                  rw [mkNewsItem_ok_data hmk, epravdaSimple_fields hd]
                  exact isDateValid_of_filterCond hf
                · exact ihd it h2
          · rw [if_neg hf] at h
            rcases ih items h with ⟨ihu, ihd⟩
            refine ⟨fun hpre => ?_, ihd⟩
            simp only [List.map_cons]
            exact List.Sublist.cons _ (ihu (fun t ht => hpre t (List.mem_cons_of_mem _ ht)))
    | val vo =>
      cases vo with
      | none =>
        simp only [hg] at h
        rcases ih items h with ⟨ihu, ihd⟩
        refine ⟨fun hpre => ?_, ihd⟩
        simp only [List.map_cons]
        exact List.Sublist.cons _ (ihu (fun t ht => hpre t (List.mem_cons_of_mem _ ht)))
      | some it0 =>
        simp only [hg] at h
        by_cases hf : (u.isNone || isDateValid it0.article_data.published_at u) = true
        · rw [if_pos hf] at h
          cases htl : epravdaProcessBatch source orc u rest with
          | error e => simp only [htl] at h; cases h
          | ok tail =>
            simp only [htl] at h
            injection h with h
            subst h
            rcases ih tail htl with ⟨ihu, ihd⟩
            constructor
            · intro hpre
              simp only [List.map_cons]
              have hit0 : it0.url = s.url :=
                (epravdaProcessSingle_some hg).1 (hpre s (List.mem_cons_self s rest))
              rw [hit0]
              exact List.Sublist.cons₂ _ (ihu (fun t ht => hpre t (List.mem_cons_of_mem _ ht)))
            · intro it hit
              rcases List.mem_cons.mp hit with h1 | h2
              · subst h1
                exact isDateValid_of_filterCond hf
              · exact ihd it h2
        · rw [if_neg hf] at h
          rcases ih items h with ⟨ihu, ihd⟩
          refine ⟨fun hpre => ?_, ihd⟩
          simp only [List.map_cons]
          exact List.Sublist.cons _ (ihu (fun t ht => hpre t (List.mem_cons_of_mem _ ht)))

theorem epravdaBatchLoop_spec (source : String) (orc : Stub → FetchRes)
    (u : Option PyDateTime) :
    ∀ (L : List (List Stub)) (items : List NewsItem),
    epravdaBatchLoop source orc u L = .ok items →
    ((∀ s ∈ L.flatten, strStartsWith s.url "https://" = true) →
      List.Sublist (items.map (fun it => it.url)) ((L.flatten).map (fun s => s.url))) ∧
    (∀ it ∈ items, isDateValid it.article_data.published_at u = true) := by
  intro L
  induction L with
  | nil =>
    intro items h
    simp only [epravdaBatchLoop] at h
    injection h with h
    subst h
    exact ⟨fun _ => List.Sublist.refl _, by simp⟩
  | cons b bs ih =>
    intro items h
    simp only [epravdaBatchLoop] at h
    cases hr : epravdaProcessBatch source orc u b with
    | error e => simp only [hr] at h; cases h
    | ok r =>
      simp only [hr] at h
      cases ht : epravdaBatchLoop source orc u bs with
      | error e => simp only [ht] at h; cases h
      | ok t =>
        simp only [ht] at h
        injection h with h
        subst h
        rcases epravdaProcessBatch_spec source orc u b r hr with ⟨hru, hrd⟩
        rcases ih t ht with ⟨htu, htd⟩
        constructor
        · intro hpre
          rw [List.flatten_cons, List.map_append, List.map_append]
          exact List.Sublist.append
            (hru (fun s hs => hpre s (List.mem_append_left _ hs)))
            (htu (fun s hs => hpre s (List.mem_append_right _ hs)))
        · intro it hit
          rcases List.mem_append.mp hit with h1 | h2
          · exact hrd it h1
          · exact htd it h2

theorem epravdaProcessArticlesAsync_spec (source : String) (orc : Stub → FetchRes)
    (u : Option PyDateTime) (articles : List Stub) (items : List NewsItem)
    (h : epravdaProcessArticlesAsync source orc u articles = .ok items) :
    ((∀ s ∈ articles, strStartsWith s.url "https://" = true) →
      ((articles.map (fun s => s.url)).Nodup → (items.map (fun it => it.url)).Nodup)) ∧
    (∀ it ∈ items, isDateValid it.article_data.published_at u = true) := by
  simp only [epravdaProcessArticlesAsync] at h
  by_cases he : articles.isEmpty = true
  · rw [if_pos he] at h
    injection h with h
    subst h
    exact ⟨fun _ _ => List.nodup_nil, by simp⟩
  · rw [if_neg he] at h
    cases hsi : epravdaSimpleItems source u
        (articles.filter (fun a => !shouldParseFullContent source a.url)) with
    | error e => simp only [hsi] at h; cases h
    | ok simpleItems =>
      simp only [hsi] at h
      cases hfi : epravdaBatchLoop source orc u
          (chunksOf20 (articles.filter (fun a => shouldParseFullContent source a.url))) with
      | error e => simp only [hfi] at h; cases h
      | ok fullItems =>
        simp only [hfi] at h
        injection h with h
        subst h
        rcases epravdaSimpleItems_spec source u _ simpleItems hsi with ⟨hsu, hsd⟩
        rcases epravdaBatchLoop_spec source orc u _ fullItems hfi with ⟨hfu, hfd⟩
        constructor
        · intro hpre hnd
          have hperm : List.Perm
              (articles.filter (fun a => !shouldParseFullContent source a.url) ++
                articles.filter (fun a => shouldParseFullContent source a.url))
              articles := by
            have hp := List.filter_append_perm
              (fun a => !shouldParseFullContent source a.url) articles
            simpa using hp
          have hpermMap : List.Perm
              ((articles.filter (fun a => !shouldParseFullContent source a.url)).map
                  (fun s => s.url) ++
                (articles.filter (fun a => shouldParseFullContent source a.url)).map
                  (fun s => s.url))
              (articles.map (fun s => s.url)) := by
            have := hperm.map (fun s => s.url)
            simpa using this
          have hndBig : ((articles.filter (fun a => !shouldParseFullContent source a.url)).map
              (fun s => s.url) ++
              (articles.filter (fun a => shouldParseFullContent source a.url)).map
              (fun s => s.url)).Nodup := hpermMap.nodup_iff.mpr hnd
          have hsub : List.Sublist
              ((simpleItems ++ fullItems).map (fun it => it.url))
              ((articles.filter (fun a => !shouldParseFullContent source a.url)).map
                  (fun s => s.url) ++
                (articles.filter (fun a => shouldParseFullContent source a.url)).map
                  (fun s => s.url)) := by
            rw [List.map_append]
            refine List.Sublist.append
              (hsu (fun s hs => hpre s (List.mem_of_mem_filter hs))) ?_
            have hflat : (chunksOf20 (articles.filter
                (fun a => shouldParseFullContent source a.url))).flatten =
                articles.filter (fun a => shouldParseFullContent source a.url) :=
              chunksOf20_flatten _
            have := hfu (fun s hs => hpre s (List.mem_of_mem_filter (hflat ▸ hs)))
            rw [hflat] at this
            exact this
          exact List.Nodup.sublist hsub hndBig
        · intro it hit
          rcases List.mem_append.mp hit with h1 | h2
          · exact hsd it h1
          · exact hfd it h2

theorem epravdaParseNews_ok_items (source : String) (now : PyDateTime) (today : Nat)
    (pOrc : String → List Stub) (orc : Stub → FetchRes) (u : Option PyDateTime)
    (c : NewsCollection)
    (h : epravdaParseNews source now today pOrc orc u = .ok c) :
    c.items = [] ∨
      epravdaProcessArticlesAsync source orc u
        (dedupByUrl ((generateDateUrls today (epravdaEndDay u today)).map pOrc).flatten) =
        .ok c.items := by
  cases hb : epravdaParseNewsBody source now today pOrc orc u with
  | error e =>
    simp only [epravdaParseNews, hb] at h
    left
    rw [mkNewsCollection_ok h]
  | ok c0 =>
    simp only [epravdaParseNews, hb] at h
    have hc : c0 = c := Except.ok.inj h
    right
    simp only [epravdaParseNewsBody] at hb
    split at hb
    · cases hb
    · rename_i items heq
      have hitems : c.items = items := by rw [← hc, mkNewsCollection_ok hb]
      rw [hitems]
      exact heq

/-! ### Pravda pipeline lemmas -/

theorem pravdaSimpleItems_spec (source : String) :
    ∀ (l : List Stub) (items : List NewsItem),
    pravdaSimpleItems source l = .ok items →
    ∀ it ∈ items, ∃ s ∈ l, it.article_data.published_at = s.datetime ∧
      it.article_data.content_body = cleanText s.subheader := by
  intro l
  induction l with
  | nil =>
    intro items h
    simp only [pravdaSimpleItems] at h
    injection h with h
    subst h
    simp
  | cons s rest ih =>
    intro items h
    simp only [pravdaSimpleItems] at h
    cases hd : pravdaCreateSimpleArticleData s with
    | error e => simp only [hd] at h; cases h
    | ok data =>
      simp only [hd] at h
      cases hmk : mkNewsItem source s.url data with
      | error e => simp only [hmk] at h; cases h
      | ok it0 =>
        simp only [hmk] at h
        cases htl : pravdaSimpleItems source rest with
        | error e => simp only [htl] at h; cases h
        | ok tail =>
          simp only [htl] at h
          injection h with h
          subst h
          intro it hit
          rcases List.mem_cons.mp hit with h1 | h2
          · subst h1
            refine ⟨s, List.mem_cons_self s rest, ?_, ?_⟩
            · rw [mkNewsItem_ok_data hmk, (pravdaSimple_fields hd).1]
            · rw [mkNewsItem_ok_data hmk, (pravdaSimple_fields hd).2]
          · rcases ih tail htl it h2 with ⟨t, ht, hp⟩
            exact ⟨t, List.mem_cons_of_mem _ ht, hp⟩

theorem pravdaProcessBatch_spec (source : String) (orc : Stub → FetchRes) :
    ∀ (l : List Stub) (items : List NewsItem),
    pravdaProcessBatch source orc l = .ok items →
    ∀ it ∈ items,
      (∃ s ∈ l, it.article_data.published_at = s.datetime ∧
        it.article_data.content_body = cleanText s.subheader) ∨
      (∃ s ∈ l, (s.datetime.isSome = true → it.article_data.published_at = s.datetime) ∧
        (strStartsWith s.url "https://" = true → it.url = s.url)) := by
  intro l
  induction l with
  | nil =>
    intro items h
    simp only [pravdaProcessBatch] at h
    injection h with h
    subst h
    simp
  | cons s rest ih =>
    intro items h
    simp only [pravdaProcessBatch] at h
    cases hg : pravdaProcessSingle source s (orc s) with
    | exn m =>
      simp only [hg] at h
      cases hd : pravdaCreateSimpleArticleData s with
      | error e => simp only [hd] at h; cases h
      | ok data =>
        simp only [hd] at h
        cases hmk : mkNewsItem source s.url data with
        | error e => simp only [hmk] at h; cases h
        | ok it0 =>
          simp only [hmk] at h
          cases htl : pravdaProcessBatch source orc rest with
          | error e => simp only [htl] at h; cases h
          | ok tail =>
            simp only [htl] at h
            injection h with h
            subst h
            intro it hit
            rcases List.mem_cons.mp hit with h1 | h2
            · subst h1
              left
              refine ⟨s, List.mem_cons_self s rest, ?_, ?_⟩
              · rw [mkNewsItem_ok_data hmk, (pravdaSimple_fields hd).1]
              · rw [mkNewsItem_ok_data hmk, (pravdaSimple_fields hd).2]
            · rcases ih tail htl it h2 with hl | hr
              · rcases hl with ⟨t, ht, hp⟩
                exact Or.inl ⟨t, List.mem_cons_of_mem _ ht, hp⟩
              · rcases hr with ⟨t, ht, hp⟩
                exact Or.inr ⟨t, List.mem_cons_of_mem _ ht, hp⟩
    | val vo =>
      cases vo with
      | none =>
        simp only [hg] at h
        intro it hit
        rcases ih items h it hit with hl | hr
        · rcases hl with ⟨t, ht, hp⟩
          exact Or.inl ⟨t, List.mem_cons_of_mem _ ht, hp⟩
        · rcases hr with ⟨t, ht, hp⟩
          exact Or.inr ⟨t, List.mem_cons_of_mem _ ht, hp⟩
      | some it0 =>
        simp only [hg] at h
        cases htl : pravdaProcessBatch source orc rest with
        | error e => simp only [htl] at h; cases h
        | ok tail =>
          simp only [htl] at h
          injection h with h
          subst h
          intro it hit
          rcases List.mem_cons.mp hit with h1 | h2
          · subst h1
            right
            exact ⟨s, List.mem_cons_self s rest,
              (pravdaProcessSingle_some hg).2, (pravdaProcessSingle_some hg).1⟩
          · rcases ih tail htl it h2 with hl | hr
            · rcases hl with ⟨t, ht, hp⟩
              exact Or.inl ⟨t, List.mem_cons_of_mem _ ht, hp⟩
            · rcases hr with ⟨t, ht, hp⟩
              exact Or.inr ⟨t, List.mem_cons_of_mem _ ht, hp⟩

theorem pravdaBatchLoop_spec (source : String) (orc : Stub → FetchRes) :
    ∀ (L : List (List Stub)) (items : List NewsItem),
    pravdaBatchLoop source orc L = .ok items →
    ∀ it ∈ items,
      (∃ s ∈ L.flatten, it.article_data.published_at = s.datetime ∧
        it.article_data.content_body = cleanText s.subheader) ∨
      (∃ s ∈ L.flatten, (s.datetime.isSome = true → it.article_data.published_at = s.datetime) ∧
        (strStartsWith s.url "https://" = true → it.url = s.url)) := by
  intro L
  induction L with
  | nil =>
    intro items h
    simp only [pravdaBatchLoop] at h
    injection h with h
    subst h
    simp
  | cons b bs ih =>
    intro items h
    simp only [pravdaBatchLoop] at h
    cases hr : pravdaProcessBatch source orc b with
    | error e => simp only [hr] at h; cases h
    | ok r =>
      simp only [hr] at h
      cases ht : pravdaBatchLoop source orc bs with
      | error e => simp only [ht] at h; cases h
      | ok t =>
        simp only [ht] at h
        injection h with h
        subst h
        intro it hit
        rcases List.mem_append.mp hit with h1 | h2
        · rcases pravdaProcessBatch_spec source orc b r hr it h1 with hl | hrr
          · rcases hl with ⟨s, hs, hp⟩
            exact Or.inl ⟨s, by rw [List.flatten_cons]; exact List.mem_append_left _ hs, hp⟩
          · rcases hrr with ⟨s, hs, hp⟩
            exact Or.inr ⟨s, by rw [List.flatten_cons]; exact List.mem_append_left _ hs, hp⟩
        · rcases ih t ht it h2 with hl | hrr
          · rcases hl with ⟨s, hs, hp⟩
            exact Or.inl ⟨s, by rw [List.flatten_cons]; exact List.mem_append_right _ hs, hp⟩
          · rcases hrr with ⟨s, hs, hp⟩
            exact Or.inr ⟨s, by rw [List.flatten_cons]; exact List.mem_append_right _ hs, hp⟩

theorem pravdaProcessArticlesAsync_spec (source : String) (orc : Stub → FetchRes)
    (articles : List Stub) (items : List NewsItem)
    (h : pravdaProcessArticlesAsync source orc articles = .ok items) :
    ∀ it ∈ items,
      (∃ s ∈ articles, it.article_data.published_at = s.datetime ∧
        it.article_data.content_body = cleanText s.subheader) ∨
      (∃ s ∈ articles, shouldParseFullContent source s.url = true ∧
        (s.datetime.isSome = true → it.article_data.published_at = s.datetime) ∧
        (strStartsWith s.url "https://" = true → it.url = s.url)) := by
  simp only [pravdaProcessArticlesAsync] at h
  by_cases he : articles.isEmpty = true
  · rw [if_pos he] at h
    injection h with h
    subst h
    simp
  · rw [if_neg he] at h
    cases hsi : pravdaSimpleItems source
        (articles.filter (fun a => !shouldParseFullContent source a.url)) with
    | error e => simp only [hsi] at h; cases h
    | ok simpleItems =>
      simp only [hsi] at h
      cases hfi : pravdaBatchLoop source orc
          (chunksOf20 (articles.filter (fun a => shouldParseFullContent source a.url))) with
      | error e => simp only [hfi] at h; cases h
      | ok fullItems =>
        simp only [hfi] at h
        injection h with h
        subst h
        intro it hit
        rcases List.mem_append.mp hit with h1 | h2
        · rcases pravdaSimpleItems_spec source _ simpleItems hsi it h1 with ⟨s, hs, hp⟩
          exact Or.inl ⟨s, List.mem_of_mem_filter hs, hp⟩
        · have hflat : (chunksOf20 (articles.filter
              (fun a => shouldParseFullContent source a.url))).flatten =
              articles.filter (fun a => shouldParseFullContent source a.url) :=
            chunksOf20_flatten _
          rcases pravdaBatchLoop_spec source orc _ fullItems hfi it h2 with hl | hr
          · rcases hl with ⟨s, hs, hp⟩
            rw [hflat] at hs
            exact Or.inl ⟨s, List.mem_of_mem_filter hs, hp⟩
          · rcases hr with ⟨s, hs, hp⟩
            rw [hflat] at hs
            refine Or.inr ⟨s, List.mem_of_mem_filter hs, ?_, hp.1, hp.2⟩
            have hps := List.of_mem_filter hs
            simpa using hps

theorem pravdaParseNews_ok_items (source : String) (now : PyDateTime)
    (listing : Option (List Stub)) (orc : Stub → FetchRes) (u : Option PyDateTime)
    (c : NewsCollection)
    (h : pravdaParseNews source now listing orc u = .ok c) :
    c.items = [] ∨
      ∃ l0, listing = some l0 ∧
        pravdaProcessArticlesAsync source orc
          (l0.filter (fun a => u.isNone || isDateValid a.datetime u)) = .ok c.items := by
  cases hb : pravdaParseNewsBody source now listing orc u with
  | error e =>
    simp only [pravdaParseNews, hb] at h
    left
    rw [mkNewsCollection_ok h]
  | ok c0 =>
    simp only [pravdaParseNews, hb] at h
    have hc : c0 = c := Except.ok.inj h
    simp only [pravdaParseNewsBody] at hb
    cases listing with
    | none =>
      left
      rw [← hc, mkNewsCollection_ok hb]
    | some l0 =>
      simp only at hb
      by_cases hemp : l0.isEmpty = true
      · rw [if_pos hemp] at hb
        left
        rw [← hc, mkNewsCollection_ok hb]
      · rw [if_neg hemp] at hb
        right
        refine ⟨l0, rfl, ?_⟩
        split at hb
        · cases hb
        · rename_i items heq
          have hitems : c.items = items := by rw [← hc, mkNewsCollection_ok hb]
          rw [hitems]
          exact heq

/-! ### Politeka pipeline lemmas -/

theorem politekaFetchAllPages_pred {pOrc : String → List Stub} {u : Option PyDateTime}
    (P : Stub → Prop) (hOrc : ∀ url st, st ∈ pOrc url → P st) :
    ∀ (urls : List String) (s : Stub), s ∈ politekaFetchAllPages pOrc u urls → P s := by
  intro urls
  induction urls with
  | nil => intro s hs; simp [politekaFetchAllPages] at hs
  | cons url rest ih =>
    intro s hs
    simp only [politekaFetchAllPages] at hs
    by_cases hemp : (pOrc url).isEmpty = true
    · rw [if_pos hemp] at hs
      simp at hs
    · rw [if_neg hemp] at hs
      by_cases hsome : u.isSome = true
      · rw [if_pos hsome] at hs
        by_cases hlen : (((pOrc url).takeWhile
            (fun a => isDateValid a.datetime u)).length == (pOrc url).length) = true
        · rw [if_pos hlen] at hs
          rcases List.mem_append.mp hs with h1 | h2
          · exact hOrc url s ((List.takeWhile_sublist _).subset h1)
          · exact ih s h2
        · rw [if_neg hlen] at hs
          exact hOrc url s ((List.takeWhile_sublist _).subset hs)
      · rw [if_neg hsome] at hs
        rcases List.mem_append.mp hs with h1 | h2
        · exact hOrc url s h1
        · exact ih s h2

theorem politekaFetchAllPages_dateValid {pOrc : String → List Stub} {v : PyDateTime} :
    ∀ (urls : List String) (s : Stub), s ∈ politekaFetchAllPages pOrc (some v) urls →
    isDateValid s.datetime (some v) = true := by
  intro urls
  induction urls with
  | nil => intro s hs; simp [politekaFetchAllPages] at hs
  | cons url rest ih =>
    intro s hs
    simp only [politekaFetchAllPages] at hs
    by_cases hemp : (pOrc url).isEmpty = true
    · rw [if_pos hemp] at hs
      simp at hs
    · rw [if_neg hemp] at hs
      rw [if_pos (by rfl : (some v).isSome = true)] at hs
      by_cases hlen : (((pOrc url).takeWhile
          (fun a => isDateValid a.datetime (some v))).length == (pOrc url).length) = true
      · rw [if_pos hlen] at hs
        rcases List.mem_append.mp hs with h1 | h2
        · have := List.mem_takeWhile_imp h1
          simpa using this
        · exact ih s h2
      · rw [if_neg hlen] at hs
        have := List.mem_takeWhile_imp hs
        simpa using this

theorem politekaSimpleItems_spec (source : String) :
    ∀ (l : List Stub) (items : List NewsItem),
    politekaSimpleItems source l = .ok items →
    ((∀ s ∈ l, strStartsWith s.url "https://" = true) →
      List.Sublist (items.map (fun it => it.url)) (l.map (fun s => s.url))) ∧
    (∀ it ∈ items, ∃ s ∈ l, it.article_data.published_at = s.datetime ∧
      it.article_data.content_body = cleanText s.description) := by
  intro l
  induction l with
  | nil =>
    intro items h
    simp only [politekaSimpleItems] at h
    injection h with h
    subst h
    exact ⟨fun _ => List.Sublist.refl _, by simp⟩
  | cons s rest ih =>
    intro items h
    simp only [politekaSimpleItems] at h
    cases hd : politekaCreateSimpleArticleData s with
    | error e => simp only [hd] at h; cases h
    | ok data =>
      simp only [hd] at h
      cases hmk : mkNewsItem source s.url data with
      | error e => simp only [hmk] at h; cases h
      | ok it0 =>
        simp only [hmk] at h
        cases htl : politekaSimpleItems source rest with
        | error e => simp only [htl] at h; cases h
        | ok tail =>
          simp only [htl] at h
          injection h with h
          subst h
          rcases ih tail htl with ⟨ihu, ihe⟩
          constructor
          · intro hpre
            simp only [List.map_cons]
            have hit0 : it0.url = s.url :=
              (mkNewsItem_ok_fields (hpre s (List.mem_cons_self s rest)) hmk).1
            rw [hit0]
            exact List.Sublist.cons₂ _ (ihu (fun t ht => hpre t (List.mem_cons_of_mem _ ht)))
          · intro it hit
            rcases List.mem_cons.mp hit with h1 | h2
            · subst h1
              refine ⟨s, List.mem_cons_self s rest, ?_, ?_⟩
              · rw [mkNewsItem_ok_data hmk, (politekaSimple_fields hd).1]
              · rw [mkNewsItem_ok_data hmk, (politekaSimple_fields hd).2]
            · rcases ihe it h2 with ⟨t, ht, hp⟩
              exact ⟨t, List.mem_cons_of_mem _ ht, hp⟩

theorem politekaProcessBatch_spec (source : String) (orc : Stub → FetchRes) :
    ∀ (l : List Stub) (items : List NewsItem),
    politekaProcessBatch source orc l = .ok items →
    ((∀ s ∈ l, strStartsWith s.url "https://" = true) →
      List.Sublist (items.map (fun it => it.url)) (l.map (fun s => s.url))) ∧
    (∀ it ∈ items,
      (∃ s ∈ l, it.article_data.published_at = s.datetime ∧
        it.article_data.content_body = cleanText s.description) ∨
      (∃ s ∈ l, (s.datetime.isSome = true → it.article_data.published_at = s.datetime) ∧
        (strStartsWith s.url "https://" = true → it.url = s.url))) := by
  intro l
  induction l with
  | nil =>
    intro items h
    simp only [politekaProcessBatch] at h
    injection h with h
    subst h
    exact ⟨fun _ => List.Sublist.refl _, by simp⟩
  | cons s rest ih =>
    intro items h
    simp only [politekaProcessBatch] at h
    cases hg : politekaProcessSingle source s (orc s) with
    | exn m =>
      simp only [hg] at h
      cases hd : politekaCreateSimpleArticleData s with
      | error e => simp only [hd] at h; cases h
      | ok data =>
        simp only [hd] at h
        cases hmk : mkNewsItem source s.url data with
        | error e => simp only [hmk] at h; cases h
        | ok it0 =>
          simp only [hmk] at h
          cases htl : politekaProcessBatch source orc rest with
          | error e => simp only [htl] at h; cases h
          | ok tail =>
            simp only [htl] at h
            injection h with h
            subst h
            rcases ih tail htl with ⟨ihu, ihe⟩
            constructor
            · intro hpre
              simp only [List.map_cons]
              have hit0 : it0.url = s.url :=
                (mkNewsItem_ok_fields (hpre s (List.mem_cons_self s rest)) hmk).1
              rw [hit0]
              exact List.Sublist.cons₂ _ (ihu (fun t ht => hpre t (List.mem_cons_of_mem _ ht)))
            · intro it hit
              rcases List.mem_cons.mp hit with h1 | h2
              · subst h1
                left
                refine ⟨s, List.mem_cons_self s rest, ?_, ?_⟩
                · rw [mkNewsItem_ok_data hmk, (politekaSimple_fields hd).1]
                · rw [mkNewsItem_ok_data hmk, (politekaSimple_fields hd).2]
              · rcases ihe it h2 with hl | hr
                · rcases hl with ⟨t, ht, hp⟩
                  exact Or.inl ⟨t, List.mem_cons_of_mem _ ht, hp⟩
                · rcases hr with ⟨t, ht, hp⟩
                  exact Or.inr ⟨t, List.mem_cons_of_mem _ ht, hp⟩
    | val vo =>
      cases vo with
      | none =>
        simp only [hg] at h
        rcases ih items h with ⟨ihu, ihe⟩
        constructor
        · intro hpre
          simp only [List.map_cons]
          exact List.Sublist.cons _ (ihu (fun t ht => hpre t (List.mem_cons_of_mem _ ht)))
        · intro it hit
          rcases ihe it hit with hl | hr
          · rcases hl with ⟨t, ht, hp⟩
            exact Or.inl ⟨t, List.mem_cons_of_mem _ ht, hp⟩
          · rcases hr with ⟨t, ht, hp⟩
            exact Or.inr ⟨t, List.mem_cons_of_mem _ ht, hp⟩
      | some it0 =>
        simp only [hg] at h
        cases htl : politekaProcessBatch source orc rest with
        | error e => simp only [htl] at h; cases h
        | ok tail =>
          simp only [htl] at h
          injection h with h
          subst h
          rcases ih tail htl with ⟨ihu, ihe⟩
          have hg' : pravdaProcessSingle source s (orc s) = .val (some it0) := hg
          constructor
          · intro hpre
            simp only [List.map_cons]
            have hit0 : it0.url = s.url :=
              (pravdaProcessSingle_some hg').1 (hpre s (List.mem_cons_self s rest))
            rw [hit0]
            exact List.Sublist.cons₂ _ (ihu (fun t ht => hpre t (List.mem_cons_of_mem _ ht)))
          · intro it hit
            rcases List.mem_cons.mp hit with h1 | h2
            · subst h1
              right
              exact ⟨s, List.mem_cons_self s rest,
                (pravdaProcessSingle_some hg').2, (pravdaProcessSingle_some hg').1⟩
            · rcases ihe it h2 with hl | hr
              · rcases hl with ⟨t, ht, hp⟩
                exact Or.inl ⟨t, List.mem_cons_of_mem _ ht, hp⟩
              · rcases hr with ⟨t, ht, hp⟩
                exact Or.inr ⟨t, List.mem_cons_of_mem _ ht, hp⟩

theorem politekaBatchLoop_spec (source : String) (orc : Stub → FetchRes) :
    ∀ (L : List (List Stub)) (items : List NewsItem),
    politekaBatchLoop source orc L = .ok items →
    ((∀ s ∈ L.flatten, strStartsWith s.url "https://" = true) →
      List.Sublist (items.map (fun it => it.url)) ((L.flatten).map (fun s => s.url))) ∧
    (∀ it ∈ items,
      (∃ s ∈ L.flatten, it.article_data.published_at = s.datetime ∧
        it.article_data.content_body = cleanText s.description) ∨
      (∃ s ∈ L.flatten, (s.datetime.isSome = true → it.article_data.published_at = s.datetime) ∧
        (strStartsWith s.url "https://" = true → it.url = s.url))) := by
  intro L
  induction L with
  | nil =>
    intro items h
    simp only [politekaBatchLoop] at h
    injection h with h
    subst h
    exact ⟨fun _ => List.Sublist.refl _, by simp⟩
  | cons b bs ih =>
    intro items h
    simp only [politekaBatchLoop] at h
    cases hr : politekaProcessBatch source orc b with
    | error e => simp only [hr] at h; cases h
    | ok r =>
      simp only [hr] at h
      cases ht : politekaBatchLoop source orc bs with
      | error e => simp only [ht] at h; cases h
      | ok t =>
        simp only [ht] at h
        injection h with h
        subst h
        rcases politekaProcessBatch_spec source orc b r hr with ⟨hru, hre⟩
        rcases ih t ht with ⟨htu, hte⟩
        constructor
        · intro hpre
          rw [List.flatten_cons, List.map_append, List.map_append]
          exact List.Sublist.append
            (hru (fun s hs => hpre s (List.mem_append_left _ hs)))
            (htu (fun s hs => hpre s (List.mem_append_right _ hs)))
        · intro it hit
          rcases List.mem_append.mp hit with h1 | h2
          · rcases hre it h1 with hl | hrr
            · rcases hl with ⟨s, hs, hp⟩
              exact Or.inl ⟨s, by rw [List.flatten_cons]; exact List.mem_append_left _ hs, hp⟩
            · rcases hrr with ⟨s, hs, hp⟩
              exact Or.inr ⟨s, by rw [List.flatten_cons]; exact List.mem_append_left _ hs, hp⟩
          · rcases hte it h2 with hl | hrr
            · rcases hl with ⟨s, hs, hp⟩
              exact Or.inl ⟨s, by rw [List.flatten_cons]; exact List.mem_append_right _ hs, hp⟩
            · rcases hrr with ⟨s, hs, hp⟩
              exact Or.inr ⟨s, by rw [List.flatten_cons]; exact List.mem_append_right _ hs, hp⟩

theorem politekaProcessArticlesAsync_spec (source : String) (orc : Stub → FetchRes)
    (articles : List Stub) (items : List NewsItem)
    (h : politekaProcessArticlesAsync source orc articles = .ok items) :
    ((∀ s ∈ articles, strStartsWith s.url "https://" = true) →
      ((articles.map (fun s => s.url)).Nodup → (items.map (fun it => it.url)).Nodup)) ∧
    (∀ it ∈ items,
      (∃ s ∈ articles, it.article_data.published_at = s.datetime ∧
        it.article_data.content_body = cleanText s.description) ∨
      (∃ s ∈ articles, politekaShouldParseFullContent source s.url = true ∧
        (s.datetime.isSome = true → it.article_data.published_at = s.datetime) ∧
        (strStartsWith s.url "https://" = true → it.url = s.url))) := by
  simp only [politekaProcessArticlesAsync] at h
  by_cases he : articles.isEmpty = true
  · rw [if_pos he] at h
    injection h with h
    subst h
    exact ⟨fun _ _ => List.nodup_nil, by simp⟩
  · rw [if_neg he] at h
    cases hsi : politekaSimpleItems source
        (articles.filter (fun a => !politekaShouldParseFullContent source a.url)) with
    | error e => simp only [hsi] at h; cases h
    | ok simpleItems =>
      simp only [hsi] at h
      cases hfi : politekaBatchLoop source orc
          (chunksOf20 (articles.filter
            (fun a => politekaShouldParseFullContent source a.url))) with
      | error e => simp only [hfi] at h; cases h
      | ok fullItems =>
        simp only [hfi] at h
        injection h with h
        subst h
        rcases politekaSimpleItems_spec source _ simpleItems hsi with ⟨hsu, hse⟩
        rcases politekaBatchLoop_spec source orc _ fullItems hfi with ⟨hfu, hfe⟩
        have hflat : (chunksOf20 (articles.filter
            (fun a => politekaShouldParseFullContent source a.url))).flatten =
            articles.filter (fun a => politekaShouldParseFullContent source a.url) :=
          chunksOf20_flatten _
        constructor
        · intro hpre hnd
          have hperm : List.Perm
              (articles.filter (fun a => !politekaShouldParseFullContent source a.url) ++
                articles.filter (fun a => politekaShouldParseFullContent source a.url))
              articles := by
            have hp := List.filter_append_perm
              (fun a => !politekaShouldParseFullContent source a.url) articles
            simpa using hp
          have hpermMap := hperm.map (fun s => s.url)
          have hndBig : ((articles.filter
              (fun a => !politekaShouldParseFullContent source a.url)).map (fun s => s.url) ++
              (articles.filter (fun a => politekaShouldParseFullContent source a.url)).map
              (fun s => s.url)).Nodup := by
            refine (List.Perm.nodup_iff ?_).mpr hnd
            simpa using hpermMap
          have hsub : List.Sublist
              ((simpleItems ++ fullItems).map (fun it => it.url))
              ((articles.filter (fun a => !politekaShouldParseFullContent source a.url)).map
                  (fun s => s.url) ++
                (articles.filter (fun a => politekaShouldParseFullContent source a.url)).map
                  (fun s => s.url)) := by
            rw [List.map_append]
            refine List.Sublist.append
              (hsu (fun s hs => hpre s (List.mem_of_mem_filter hs))) ?_
            have := hfu (fun s hs => hpre s (List.mem_of_mem_filter (hflat ▸ hs)))
            rw [hflat] at this
            exact this
          exact List.Nodup.sublist hsub hndBig
        · intro it hit
          rcases List.mem_append.mp hit with h1 | h2
          · rcases hse it h1 with ⟨s, hs, hp⟩
            exact Or.inl ⟨s, List.mem_of_mem_filter hs, hp⟩
          · rcases hfe it h2 with hl | hr
            · rcases hl with ⟨s, hs, hp⟩
              rw [hflat] at hs
              exact Or.inl ⟨s, List.mem_of_mem_filter hs, hp⟩
            · rcases hr with ⟨s, hs, hp⟩
              rw [hflat] at hs
              refine Or.inr ⟨s, List.mem_of_mem_filter hs, ?_, hp.1, hp.2⟩
              have hps := List.of_mem_filter hs
              simpa using hps

theorem politekaParseNews_ok_items (source : String) (now : PyDateTime)
    (pOrc : String → List Stub) (orc : Stub → FetchRes) (u : Option PyDateTime)
    (c : NewsCollection)
    (h : politekaParseNews source now pOrc orc u = .ok c) :
    c.items = [] ∨
      politekaProcessArticlesAsync source orc
        (dedupByUrl (politekaFetchAllPages pOrc u (politekaGeneratePageUrls source 10))) =
        .ok c.items := by
  cases hb : politekaParseNewsBody source now pOrc orc u with
  | error e =>
    simp only [politekaParseNews, hb] at h
    left
    rw [mkNewsCollection_ok h]
  | ok c0 =>
    simp only [politekaParseNews, hb] at h
    have hc : c0 = c := Except.ok.inj h
    right
    simp only [politekaParseNewsBody] at hb
    split at hb
    · cases hb
    · rename_i items heq
      have hitems : c.items = items := by rw [← hc, mkNewsCollection_ok hb]
      rw [hitems]
      exact heq

/-! ## Claim C1 -/

/-- A cross-domain listing stub with a non-empty subheader. -/
def crossStub : Stub :=
  { title := "Cross domain story", url := "https://othersite.example/x", datetime := none,
    subheader := "Короткий опис новини" }

/-- C1 counterexample: the pravda parser performs no deduplication, so a
listing containing the same article URL twice yields a collection whose
`items` carry that URL twice — the claim fails for the pravda source. -/
theorem claim_C1_counterexample :
    (pravdaParseNews "https://www.pravda.com.ua/news" sampleNow (some [crossStub, crossStub])
      failedOracle none).map (fun c => c.items.map (fun it => it.url)) =
      .ok ["https://othersite.example/x", "https://othersite.example/x"] ∧
    ¬ (["https://othersite.example/x", "https://othersite.example/x"] : List String).Nodup :=
  ⟨by rfl, by decide⟩

/-- C1 amended: the epravda and politeka parsers deduplicate the concatenated
stubs by `url`, keeping the first occurrence in generation order and preserving
relative order (the deduplicated list is an order-preserving sublist of the
input, its URLs are pairwise distinct, the stub retained for a URL is the first
stub carrying it, and every input URL survives), and their returned `items`
contain each article URL at most once.  The pravda parser has no deduplication
step, and repeated stub URLs yield repeated items (see the counterexample). -/
theorem claim_C1_theorem (l : List Stub) (s t : Stub)
    (source : String) (now : PyDateTime) (today : Nat) (pOrc : String → List Stub)
    (orc : Stub → FetchRes) (u : Option PyDateTime) (c : NewsCollection)
    (source3 : String) (now3 : PyDateTime) (pOrc3 : String → List Stub)
    (orc3 : Stub → FetchRes) (u3 : Option PyDateTime) (c3 : NewsCollection)
    (hs : s ∈ dedupByUrl l) (ht : t ∈ l)
    (hpre : ∀ url stub, stub ∈ pOrc url → strStartsWith stub.url "https://" = true)
    (hc : epravdaParseNews source now today pOrc orc u = .ok c)
    (hpre3 : ∀ url stub, stub ∈ pOrc3 url → strStartsWith stub.url "https://" = true)
    (hc3 : politekaParseNews source3 now3 pOrc3 orc3 u3 = .ok c3) :
    List.Sublist (dedupByUrl l) l ∧
    ((dedupByUrl l).map (fun x => x.url)).Nodup ∧
    l.find? (fun x => x.url == s.url) = some s ∧
    t.url ∈ (dedupByUrl l).map (fun x => x.url) ∧
    (c.items.map (fun it => it.url)).Nodup ∧
    (c3.items.map (fun it => it.url)).Nodup := by
  refine ⟨dedupByUrl_sublist l, dedupByUrl_urls_nodup l, dedupByUrl_find hs,
    dedupByUrl_complete ht, ?_, ?_⟩
  · rcases epravdaParseNews_ok_items source now today pOrc orc u c hc with hnil | hok
    · rw [hnil]
      exact List.nodup_nil
    · have hpreD : ∀ s0 ∈ dedupByUrl
          ((generateDateUrls today (epravdaEndDay u today)).map pOrc).flatten,
          strStartsWith s0.url "https://" = true := by
        intro s0 hs0
        rcases List.mem_flatten.mp (dedupByUrl_mem hs0) with ⟨pageL, hpageL, hs0p⟩
        rcases List.mem_map.mp hpageL with ⟨u0, _, hpu⟩
        exact hpre u0 s0 (by rw [hpu]; exact hs0p)
      exact (epravdaProcessArticlesAsync_spec source orc u _ _ hok).1 hpreD
        (dedupByUrl_urls_nodup _)
  · rcases politekaParseNews_ok_items source3 now3 pOrc3 orc3 u3 c3 hc3 with hnil | hok
    · rw [hnil]
      exact List.nodup_nil
    · have hpreD : ∀ s0 ∈ dedupByUrl
          (politekaFetchAllPages pOrc3 u3 (politekaGeneratePageUrls source3 10)),
          strStartsWith s0.url "https://" = true := by
        intro s0 hs0
        exact politekaFetchAllPages_pred
          (fun st => strStartsWith st.url "https://" = true)
          (fun url st hst => hpre3 url st hst) _ s0 (dedupByUrl_mem hs0)
      exact (politekaProcessArticlesAsync_spec source3 orc3 _ _ hok).1 hpreD
        (dedupByUrl_urls_nodup _)

def stubA : Stub :=
  { title := "First story", url := "https://epravda.com.ua/news/a/",
    datetime := some { day := daysFromCivil 2025 8 29, sod := 600 } }

def stubA2 : Stub :=
  { title := "First story again", url := "https://epravda.com.ua/news/a/",
    datetime := some { day := daysFromCivil 2025 8 29, sod := 660 } }

def stubB : Stub :=
  { title := "Second story", url := "https://other.example/b",
    datetime := some { day := daysFromCivil 2025 8 29, sod := 700 } }

def stubD : Stub :=
  { title := "Politeka cross story", url := "https://other.example/d",
    datetime := some { day := daysFromCivil 2025 8 29, sod := 710 },
    description := "Опис політека" }

/-- Witness for C1: a stub list with a duplicated URL, a concrete epravda run
(the listing page repeats one URL) and a concrete politeka run (every page
yields the same stub). -/
theorem claim_C1_witness :
    List.Sublist (dedupByUrl [stubA, stubA2, stubB]) [stubA, stubA2, stubB] ∧
    ((dedupByUrl [stubA, stubA2, stubB]).map (fun x => x.url)).Nodup ∧
    ([stubA, stubA2, stubB].find? (fun x => x.url == stubA.url)) = some stubA ∧
    stubA2.url ∈ (dedupByUrl [stubA, stubA2, stubB]).map (fun x => x.url) ∧
    (({ source := "https://epravda.com.ua/news",
         items := [{ source := "https://epravda.com.ua/news",
                     url := "https://other.example/b",
                     article_data := { title := "Second story", content_body := "",
                                       image_urls := [],
                                       published_at := some { day := daysFromCivil 2025 8 29,
                                                              sod := 700 },
                                       author := none, views := none, comments := [],
                                       likes := none, dislikes := none,
                                       video_url := none } }],
         parsed_at := sampleNow, total_items := 1, parse_status := "success",
         error_message := none } : NewsCollection).items.map (fun it => it.url)).Nodup ∧
    (({ source := "https://politeka.net/uk/newsfeed",
         items := [{ source := "https://politeka.net/uk/newsfeed",
                     url := "https://other.example/d",
                     article_data := { title := "Politeka cross story",
                                       content_body := "Опис політека", image_urls := [],
                                       published_at := some { day := daysFromCivil 2025 8 29,
                                                              sod := 710 },
                                       author := none, views := none, comments := [],
                                       likes := none, dislikes := none,
                                       video_url := none } }],
         parsed_at := sampleNow, total_items := 1, parse_status := "success",
         error_message := none } : NewsCollection).items.map (fun it => it.url)).Nodup :=
  claim_C1_theorem [stubA, stubA2, stubB] stubA stubA2
    "https://epravda.com.ua/news" sampleNow (daysFromCivil 2025 8 29)
    (fun _ => [stubA, stubA2, stubB]) failedOracle none _
    "https://politeka.net/uk/newsfeed" sampleNow (fun _ => [stubD, stubD]) failedOracle none _
    (by decide) (by decide)
    (by
      intro url stub hstub
      simp only [List.mem_cons, List.not_mem_nil, or_false] at hstub
      rcases hstub with h | h | h <;> (subst h; decide))
    (by rfl)
    (by
      intro url stub hstub
      simp only [List.mem_cons, List.not_mem_nil, or_false] at hstub
      rcases hstub with h | h <;> (subst h; decide))
    (by rfl)

/-! ## Claim C3 -/

/-- C3: the acceptance predicate `_is_date_valid(candidate, boundary)` is
`True` when the boundary is absent, `True` when the candidate is absent, and
otherwise `True` iff `candidate.date() >= boundary.date()` (day granularity,
boundary inclusive); and every item in a collection returned by `parse_news`
(epravda, pravda, politeka) satisfies the date-filter invariant: either the
boundary is absent, or the item's `published_at` is absent, or its day is at or
after the boundary's day — stated as `isDateValid published_at boundary =
true`.  For the pravda and politeka parsers the listing timestamps are always
present by construction (`_combine_time_with_today` / `_parse_politeka_date`
are total), which the `isSome` hypotheses reflect. -/
theorem claim_C3_theorem (a b : Option PyDateTime) (da db : PyDateTime)
    (source1 : String) (now1 : PyDateTime) (today1 : Nat) (pOrc1 : String → List Stub)
    (orc1 : Stub → FetchRes) (u1 : Option PyDateTime) (it1 : NewsItem)
    (source2 : String) (now2 : PyDateTime) (stubs2 : List Stub)
    (orc2 : Stub → FetchRes) (u2 : Option PyDateTime) (it2 : NewsItem)
    (source3 : String) (now3 : PyDateTime) (pOrc3 : String → List Stub)
    (orc3 : Stub → FetchRes) (u3 : Option PyDateTime) (it3 : NewsItem)
    (h1 : it1 ∈ collItems (epravdaParseNews source1 now1 today1 pOrc1 orc1 u1))
    (hsome2 : ∀ s ∈ stubs2, s.datetime.isSome = true)
    (h2 : it2 ∈ collItems (pravdaParseNews source2 now2 (some stubs2) orc2 u2))
    (hsome3 : ∀ url s, s ∈ pOrc3 url → s.datetime.isSome = true)
    (h3 : it3 ∈ collItems (politekaParseNews source3 now3 pOrc3 orc3 u3)) :
    isDateValid a none = true ∧
    isDateValid none b = true ∧
    isDateValid (some da) (some db) = decide (db.day ≤ da.day) ∧
    isDateValid it1.article_data.published_at u1 = true ∧
    isDateValid it2.article_data.published_at u2 = true ∧
    isDateValid it3.article_data.published_at u3 = true := by
  refine ⟨rfl, by cases b <;> rfl, rfl, ?_, ?_, ?_⟩
  · cases hE : epravdaParseNews source1 now1 today1 pOrc1 orc1 u1 with
    | error e => rw [hE] at h1; simp [collItems] at h1
    | ok c =>
      rw [hE] at h1
      simp only [collItems] at h1
      rcases epravdaParseNews_ok_items source1 now1 today1 pOrc1 orc1 u1 c hE with hnil | hok
      · rw [hnil] at h1; simp at h1
      · exact (epravdaProcessArticlesAsync_spec source1 orc1 u1 _ _ hok).2 it1 h1
  · cases hP : pravdaParseNews source2 now2 (some stubs2) orc2 u2 with
    | error e => rw [hP] at h2; simp [collItems] at h2
    | ok c =>
      rw [hP] at h2
      simp only [collItems] at h2
      rcases pravdaParseNews_ok_items source2 now2 (some stubs2) orc2 u2 c hP with hnil | hok
      · rw [hnil] at h2; simp at h2
      · rcases hok with ⟨l0, hl0, hasync⟩
        have hl0' : l0 = stubs2 := (Option.some.inj hl0).symm
        subst hl0'
        rcases pravdaProcessArticlesAsync_spec source2 orc2 _ _ hasync it2 h2 with hl | hr
        · rcases hl with ⟨s, hsF, hpub, _⟩
          rw [hpub]
          refine isDateValid_of_filterCond ?_
          have := List.of_mem_filter hsF
          simpa using this
        · rcases hr with ⟨s, hsF, _, hpubIf, _⟩
          rw [hpubIf (hsome2 s (List.mem_of_mem_filter hsF))]
          refine isDateValid_of_filterCond ?_
          have := List.of_mem_filter hsF
          simpa using this
  · cases u3 with
    | none => exact isDateValid_none_until _
    | some v =>
      cases hK : politekaParseNews source3 now3 pOrc3 orc3 (some v) with
      | error e => rw [hK] at h3; simp [collItems] at h3
      | ok c =>
        rw [hK] at h3
        simp only [collItems] at h3
        rcases politekaParseNews_ok_items source3 now3 pOrc3 orc3 (some v) c hK
          with hnil | hok
        · rw [hnil] at h3; simp at h3
        · rcases (politekaProcessArticlesAsync_spec source3 orc3 _ _ hok).2 it3 h3 with hl | hr
          · rcases hl with ⟨s, hsD, hpub, _⟩
            rw [hpub]
            exact politekaFetchAllPages_dateValid _ s (dedupByUrl_mem hsD)
          · rcases hr with ⟨s, hsD, _, hpubIf, _⟩
            have hsome : s.datetime.isSome = true :=
              politekaFetchAllPages_pred (fun st => st.datetime.isSome = true)
                (fun url st hst => hsome3 url st hst) _ s (dedupByUrl_mem hsD)
            rw [hpubIf hsome]
            exact politekaFetchAllPages_dateValid _ s (dedupByUrl_mem hsD)

/-- Witness for C3: concrete runs of all three parsers with a 2025-08-28
boundary and a 2025-08-29 item. -/
theorem claim_C3_witness :
    isDateValid (some { day := daysFromCivil 2025 8 29, sod := 0 }) none = true ∧
    isDateValid none (some { day := daysFromCivil 2025 8 28, sod := 0 }) = true ∧
    isDateValid (some { day := daysFromCivil 2025 8 29, sod := 0 })
      (some { day := daysFromCivil 2025 8 28, sod := 0 }) =
      decide ((daysFromCivil 2025 8 28 : Nat) ≤ daysFromCivil 2025 8 29) ∧
    isDateValid ({ source := "https://epravda.com.ua/news",
                   url := "https://other.example/b",
                   article_data := { title := "Second story", content_body := "",
                                     image_urls := [],
                                     published_at := some { day := daysFromCivil 2025 8 29,
                                                            sod := 700 },
                                     author := none, views := none, comments := [],
                                     likes := none, dislikes := none,
                                     video_url := none } } : NewsItem).article_data.published_at
      (some { day := daysFromCivil 2025 8 28, sod := 0 }) = true ∧
    isDateValid ({ source := "https://www.pravda.com.ua/news",
                   url := "https://other.example/b",
                   article_data := { title := "Second story", content_body := "",
                                     image_urls := [],
                                     published_at := some { day := daysFromCivil 2025 8 29,
                                                            sod := 700 },
                                     author := none, views := none, comments := [],
                                     likes := none, dislikes := none,
                                     video_url := none } } : NewsItem).article_data.published_at
      (some { day := daysFromCivil 2025 8 28, sod := 0 }) = true ∧
    isDateValid ({ source := "https://politeka.net/uk/newsfeed",
                   url := "https://other.example/d",
                   article_data := { title := "Politeka cross story",
                                     content_body := "Опис політека", image_urls := [],
                                     published_at := some { day := daysFromCivil 2025 8 29,
                                                            sod := 710 },
                                     author := none, views := none, comments := [],
                                     likes := none, dislikes := none,
                                     video_url := none } } : NewsItem).article_data.published_at
      (some { day := daysFromCivil 2025 8 28, sod := 0 }) = true :=
  claim_C3_theorem (some { day := daysFromCivil 2025 8 29, sod := 0 })
    (some { day := daysFromCivil 2025 8 28, sod := 0 })
    { day := daysFromCivil 2025 8 29, sod := 0 } { day := daysFromCivil 2025 8 28, sod := 0 }
    "https://epravda.com.ua/news" sampleNow (daysFromCivil 2025 8 29) (fun _ => [stubB])
    failedOracle (some { day := daysFromCivil 2025 8 28, sod := 0 }) _
    "https://www.pravda.com.ua/news" sampleNow [stubB] failedOracle
    (some { day := daysFromCivil 2025 8 28, sod := 0 }) _
    "https://politeka.net/uk/newsfeed" sampleNow (fun _ => [stubD]) failedOracle
    (some { day := daysFromCivil 2025 8 28, sod := 0 }) _
    (by decide)
    (by decide)
    (by decide)
    (by
      intro url s hst
      simp only [List.mem_cons, List.not_mem_nil, or_false] at hst
      subst hst
      decide)
    (by decide)

/-! ## Claim C6 -/

/-- C6 counterexample: a cross-domain pravda stub with a non-empty subheader
produces a cheap record whose body is that (cleaned) subheader, not the empty
string. -/
theorem claim_C6_counterexample :
    shouldParseFullContent "https://www.pravda.com.ua/news" "https://othersite.example/x" =
      false ∧
    (pravdaParseNews "https://www.pravda.com.ua/news" sampleNow (some [crossStub])
      failedOracle none).map (fun c => c.items.map (fun it => it.article_data.content_body)) =
      .ok ["Короткий опис новини"] ∧
    ("Короткий опис новини" : String) ≠ "" :=
  ⟨by decide, by rfl, by decide⟩

/-- C6 amended: a stub whose registrable domain differs from the source URL's
is handled by the cheap path only — its record's body is the cleaned listing
snippet (the stub's `subheader` for pravda, `description` for politeka, and
the empty string for epravda), never content fetched from the article page —
so the body is empty exactly when that snippet is empty, not always. -/
theorem claim_C6_theorem
    (source2 : String) (now2 : PyDateTime) (stubs2 : List Stub) (orc2 : Stub → FetchRes)
    (u2 : Option PyDateTime) (c2 : NewsCollection) (it2 : NewsItem)
    (source3 : String) (now3 : PyDateTime) (pOrc3 : String → List Stub)
    (orc3 : Stub → FetchRes) (u3 : Option PyDateTime) (c3 : NewsCollection) (it3 : NewsItem)
    (hpre2 : ∀ s ∈ stubs2, strStartsWith s.url "https://" = true)
    (h2 : pravdaParseNews source2 now2 (some stubs2) orc2 u2 = .ok c2)
    (hit2 : it2 ∈ c2.items)
    (hcross2 : shouldParseFullContent source2 it2.url = false)
    (hpre3 : ∀ url s, s ∈ pOrc3 url → strStartsWith s.url "https://" = true)
    (h3 : politekaParseNews source3 now3 pOrc3 orc3 u3 = .ok c3)
    (hit3 : it3 ∈ c3.items)
    (hcross3 : politekaShouldParseFullContent source3 it3.url = false) :
    it2.article_data.content_body ∈ stubs2.map (fun s => cleanText s.subheader) ∧
    it3.article_data.content_body ∈
      (politekaFetchAllPages pOrc3 u3 (politekaGeneratePageUrls source3 10)).map
        (fun s => cleanText s.description) := by
  constructor
  · rcases pravdaParseNews_ok_items source2 now2 (some stubs2) orc2 u2 c2 h2 with hnil | hok
    · rw [hnil] at hit2; simp at hit2
    · rcases hok with ⟨l0, hl0, hasync⟩
      have hl0' : l0 = stubs2 := (Option.some.inj hl0).symm
      subst hl0'
      rcases pravdaProcessArticlesAsync_spec source2 orc2 _ _ hasync it2 hit2 with hl | hr
      · rcases hl with ⟨s, hsF, _, hbody⟩
        rw [hbody]
        exact List.mem_map_of_mem _ (List.mem_of_mem_filter hsF)
      · rcases hr with ⟨s, hsF, hshould, _, hurl⟩
        rw [← hurl (hpre2 s (List.mem_of_mem_filter hsF))] at hshould
        rw [hshould] at hcross2
        cases hcross2
  · rcases politekaParseNews_ok_items source3 now3 pOrc3 orc3 u3 c3 h3 with hnil | hok
    · rw [hnil] at hit3; simp at hit3
    · rcases (politekaProcessArticlesAsync_spec source3 orc3 _ _ hok).2 it3 hit3 with hl | hr
      · rcases hl with ⟨s, hsD, _, hbody⟩
        rw [hbody]
        exact List.mem_map_of_mem _ (dedupByUrl_mem hsD)
      · rcases hr with ⟨s, hsD, hshould, _, hurl⟩
        have hpres : strStartsWith s.url "https://" = true :=
          politekaFetchAllPages_pred (fun st => strStartsWith st.url "https://" = true)
            (fun url st hst => hpre3 url st hst) _ s (dedupByUrl_mem hsD)
        rw [← hurl hpres] at hshould
        rw [hshould] at hcross3
        cases hcross3

def crossPolitekaStub : Stub :=
  { title := "Politeka listing story", url := "https://other.example/p", datetime := none,
    description := "Опис зі стрічки" }

/-- Witness for C6: concrete pravda and politeka runs whose single item is
cross-domain; its body equals the listing snippet. -/
theorem claim_C6_witness :
    ({ title := "Cross domain story", content_body := "Короткий опис новини",
       image_urls := [], published_at := none, author := none, views := none,
       comments := [], likes := none, dislikes := none,
       video_url := none } : ArticleData).content_body ∈
      [crossStub].map (fun s => cleanText s.subheader) ∧
    ({ title := "Politeka listing story", content_body := "Опис зі стрічки",
       image_urls := [], published_at := none, author := none, views := none,
       comments := [], likes := none, dislikes := none,
       video_url := none } : ArticleData).content_body ∈
      (politekaFetchAllPages (fun _ => [crossPolitekaStub]) none
        (politekaGeneratePageUrls "https://politeka.net/uk/newsfeed" 10)).map
        (fun s => cleanText s.description) :=
  claim_C6_theorem "https://www.pravda.com.ua/news" sampleNow [crossStub] failedOracle none
    { source := "https://www.pravda.com.ua/news",
      items := [{ source := "https://www.pravda.com.ua/news",
                  url := "https://othersite.example/x",
                  article_data := { title := "Cross domain story",
                                    content_body := "Короткий опис новини",
                                    image_urls := [], published_at := none, author := none,
                                    views := none, comments := [], likes := none,
                                    dislikes := none, video_url := none } }],
      parsed_at := sampleNow, total_items := 1, parse_status := "success",
      error_message := none }
    { source := "https://www.pravda.com.ua/news",
      url := "https://othersite.example/x",
      article_data := { title := "Cross domain story",
                        content_body := "Короткий опис новини", image_urls := [],
                        published_at := none, author := none, views := none,
                        comments := [], likes := none, dislikes := none,
                        video_url := none } }
    "https://politeka.net/uk/newsfeed" sampleNow (fun _ => [crossPolitekaStub]) failedOracle
    none
    { source := "https://politeka.net/uk/newsfeed",
      items := [{ source := "https://politeka.net/uk/newsfeed",
                  url := "https://other.example/p",
                  article_data := { title := "Politeka listing story",
                                    content_body := "Опис зі стрічки", image_urls := [],
                                    published_at := none, author := none, views := none,
                                    comments := [], likes := none, dislikes := none,
                                    video_url := none } }],
      parsed_at := sampleNow, total_items := 1, parse_status := "success",
      error_message := none }
    { source := "https://politeka.net/uk/newsfeed",
      url := "https://other.example/p",
      article_data := { title := "Politeka listing story",
                        content_body := "Опис зі стрічки", image_urls := [],
                        published_at := none, author := none, views := none,
                        comments := [], likes := none, dislikes := none,
                        video_url := none } }
    (by
      intro s hst
      simp only [List.mem_cons, List.not_mem_nil, or_false] at hst
      subst hst
      decide)
    (by rfl) (by decide) (by decide)
    (by
      intro url s hst
      simp only [List.mem_cons, List.not_mem_nil, or_false] at hst
      subst hst
      decide)
    (by rfl) (by decide) (by decide)

end NewsModel
